import Mathlib

/-!
Verification of the SSCHelp scheduler (src/main.py) against its
natural-language specification.

The development shallowly embeds the pure/deterministic core of the
program: Python strings are Lean `String`s (character lists), Python
dicts that the code iterates in insertion order are association lists,
wall-clock instants are explicit records, simulated time is `ℚ`, and
the HTTP side of the rate-limited client is modelled as a function from
attempt index to response outcome.  Python `float` values are modelled
as exact decimal pairs extended with infinities and NaN; binary64
rounding and digit-group underscores in numeric literals are not
modelled (no claim depends on them), while overflow of string
conversion to infinity is modelled exactly because `int()` of an
infinity raises.  Fallible
Python code (uncaught exceptions) is embedded with `Except`.
-/

set_option maxRecDepth 10000
set_option exponentiation.threshold 2000

deriving instance DecidableEq for Except

/-! ## Python string primitives used by the scheduler -/

/-- Characters stripped by Python `str.strip()` (ASCII whitespace). -/
def pyIsSpace (c : Char) : Bool :=
  c = ' ' || c = '\t' || c = '\n' || c = '\x0d' || c = '\x0b' || c = '\x0c'

/-- Python `str.strip()`. -/
def pyStrip (s : String) : String :=
  ⟨((s.data.dropWhile pyIsSpace).reverse.dropWhile pyIsSpace).reverse⟩

/-- ASCII lowering of one character, as done by `str.lower()` on the
ASCII configuration strings this program manipulates. -/
def pyLowerChar (c : Char) : Char :=
  if 'A' ≤ c && c ≤ 'Z' then Char.ofNat (c.toNat + 32) else c

/-- Python `str.lower()` (ASCII fragment). -/
def pyLower (s : String) : String :=
  ⟨s.data.map pyLowerChar⟩

/-- Whether `p` is a prefix of `l`, character by character. -/
def startsWithChars : List Char → List Char → Bool
  | [], _ => true
  | _ :: _, [] => false
  | a :: p, b :: l => a = b && startsWithChars p l

/-- Python `str.startswith`. -/
def pyStartsWith (s pre : String) : Bool :=
  startsWithChars pre.data s.data

/-- Whether `pat` occurs anywhere inside `l` (Python `in` on strings). -/
def hasSubChars (pat : List Char) : List Char → Bool
  | [] => startsWithChars pat []
  | l@(_ :: rest) => startsWithChars pat l || hasSubChars pat rest

/-- Python `pat in s` substring test. -/
def pyContains (s pat : String) : Bool :=
  hasSubChars pat.data s.data

/-- One pass of Python `s.replace(old, "")`: delete every
non-overlapping occurrence of `pat`, scanning left to right.  The fuel
is an upper bound on the number of scanning steps. -/
def deleteOccAux (pat : List Char) : Nat → List Char → List Char
  | _, [] => []
  | 0, l => l
  | fuel + 1, l@(c :: rest) =>
    if pat ≠ [] && startsWithChars pat l then
      deleteOccAux pat fuel (l.drop pat.length)
    else
      c :: deleteOccAux pat fuel rest

/-- Python `s.replace(pat, "")`. -/
def pyReplaceDel (s pat : String) : String :=
  ⟨deleteOccAux pat.data s.data.length s.data⟩

/-- Numeric value of a list of decimal digit characters. -/
def digitsVal (l : List Char) : Nat :=
  l.foldl (fun a c => a * 10 + (c.toNat - 48)) 0

/-! ## Time-specification parsing (`parse_time_format`, `should_execute`)

The three regular expressions tried by `parse_time_format` are
`(\d{1,2}):(\d{2})\s*(am|pm)`, `(\d{1,2})\s*(am|pm)` and
`(\d{1,2}):(\d{2})`, each applied with `re.search` (leftmost match,
greedy `\d{1,2}` backtracking from two digits to one). -/

/-- The parsed form of a task time specification. -/
structure ParsedTime where
  hour : Nat
  minute : Nat
  weekday : Option Nat
deriving DecidableEq, Repr

/-- The weekday-prefix table of `parse_time_format`, in the insertion
order of the Python dict (full names before their abbreviations). -/
def weekdayTable : List (String × Nat) :=
  [("monday", 0), ("mon", 0),
   ("tuesday", 1), ("tue", 1), ("tues", 1),
   ("wednesday", 2), ("wed", 2),
   ("thursday", 3), ("thu", 3), ("thur", 3), ("thurs", 3),
   ("friday", 4), ("fri", 4),
   ("saturday", 5), ("sat", 5),
   ("sunday", 6), ("sun", 6)]

/-- First table entry whose name starts the string, as in the
`for day_name, day_num in weekdays.items()` loop. -/
def findWeekdayToken : List (String × Nat) → String → Option (String × Nat)
  | [], _ => none
  | (d, n) :: rest, s =>
    if pyStartsWith s d then some (d, n) else findWeekdayToken rest s

/-- Consume exactly two leading digits. -/
def twoDigits? : List Char → Option (Nat × List Char)
  | a :: b :: r =>
    if a.isDigit && b.isDigit then
      some ((a.toNat - 48) * 10 + (b.toNat - 48), r)
    else none
  | _ => none

/-- Consume exactly one leading digit. -/
def oneDigit? : List Char → Option (Nat × List Char)
  | a :: r => if a.isDigit then some (a.toNat - 48, r) else none
  | _ => none

/-- Consume `:` followed by two digits (the `:(\d{2})` part). -/
def colonMinutes? : List Char → Option (Nat × List Char)
  | ':' :: r => twoDigits? r
  | _ => none

/-- Consume `\s*(am|pm)`; returns `true` for `pm`. -/
def amPm? (l : List Char) : Option (Bool × List Char) :=
  match l.dropWhile (fun c => pyIsSpace c) with
  | 'a' :: 'm' :: r => some (false, r)
  | 'p' :: 'm' :: r => some (true, r)
  | _ => none

/-- Match `(\d{1,2}):(\d{2})\s*(am|pm)` at the head of `l`, with the
greedy two-then-one digit backtracking of `\d{1,2}`. -/
def matchHMAmPmAt (l : List Char) : Option (Nat × Nat × Bool) :=
  (do
    let (h, r) ← twoDigits? l
    let (m, r) ← colonMinutes? r
    let (pm, _) ← amPm? r
    pure (h, m, pm)) <|>
  (do
    let (h, r) ← oneDigit? l
    let (m, r) ← colonMinutes? r
    let (pm, _) ← amPm? r
    pure (h, m, pm))

/-- Match `(\d{1,2})\s*(am|pm)` at the head of `l`. -/
def matchHAmPmAt (l : List Char) : Option (Nat × Bool) :=
  (do
    let (h, r) ← twoDigits? l
    let (pm, _) ← amPm? r
    pure (h, pm)) <|>
  (do
    let (h, r) ← oneDigit? l
    let (pm, _) ← amPm? r
    pure (h, pm))

/-- Match `(\d{1,2}):(\d{2})` at the head of `l`. -/
def matchHMAt (l : List Char) : Option (Nat × Nat) :=
  (do
    let (h, r) ← twoDigits? l
    let (m, _) ← colonMinutes? r
    pure (h, m)) <|>
  (do
    let (h, r) ← oneDigit? l
    let (m, _) ← colonMinutes? r
    pure (h, m))

/-- `re.search` for the first pattern: leftmost position that matches. -/
def searchHMAmPm : List Char → Option (Nat × Nat × Bool)
  | [] => none
  | l@(_ :: rest) => matchHMAmPmAt l <|> searchHMAmPm rest

/-- `re.search` for the second pattern. -/
def searchHAmPm : List Char → Option (Nat × Bool)
  | [] => none
  | l@(_ :: rest) => matchHAmPmAt l <|> searchHAmPm rest

/-- `re.search` for the third pattern. -/
def searchHM : List Char → Option (Nat × Nat)
  | [] => none
  | l@(_ :: rest) => matchHMAt l <|> searchHM rest

/-- The 12-hour fixup applied when an `am`/`pm` group is present. -/
def fixHour12 (h : Nat) (pm : Bool) : Nat :=
  if pm && h ≠ 12 then h + 12
  else if !pm && h = 12 then 0
  else h

/-- Shallow embedding of `parse_time_format` (src/main.py).  The
`ValueError` raised on an unrecognized format becomes `.error ()`. -/
def parse_time_format (timeStr : String) : Except Unit ParsedTime :=
  let ts := pyLower (pyStrip timeStr)
  let wd := findWeekdayToken weekdayTable ts
  let weekday : Option Nat := wd.map Prod.snd
  let timePart : String :=
    match wd with
    | some (d, _) => pyStrip (pyReplaceDel ts d)
    | none => ts
  match searchHMAmPm timePart.data with
  | some (h, m, pm) => .ok ⟨fixHour12 h pm, m, weekday⟩
  | none =>
    match searchHAmPm timePart.data with
    | some (h, pm) => .ok ⟨fixHour12 h pm, 0, weekday⟩
    | none =>
      match searchHM timePart.data with
      | some (h, m) => .ok ⟨h, m, weekday⟩
      | none => .error ()

/-- A wall-clock instant as the scheduler observes it:
`datetime.weekday()` (Monday = 0), hour and minute. -/
structure NowTime where
  weekday : Nat
  hour : Nat
  minute : Nat
deriving DecidableEq, Repr

/-- Shallow embedding of `should_execute` (src/main.py); the parse
failure of the time specification propagates. -/
def should_execute (timeConfig : String) (now : NowTime) : Except Unit Bool :=
  match parse_time_format timeConfig with
  | .error e => .error e
  | .ok p =>
    match p.weekday with
    | some w =>
      if now.weekday ≠ w then .ok false
      else .ok (now.hour == p.hour && now.minute == p.minute)
    | none => .ok (now.hour == p.hour && now.minute == p.minute)

example : parse_time_format ("Monday 10:30pm") = .ok ⟨22, 30, some 0⟩ := rfl
example : parse_time_format ("14:30") = .ok ⟨14, 30, none⟩ := rfl
example : parse_time_format ("garbage") = .error () := rfl

/-! ## Python values and `parse_amount`

`parse_amount` accepts the raw JSON values found in the configuration
document.  The exceptions that matter are: `ValueError`/`TypeError`
(caught, yielding 0) and `OverflowError` from `int()` of an infinite
float (not caught, so it propagates).  Finite float values are carried
as exact decimal pairs `m × 10^e` so that every function here
evaluates inside the kernel. -/

/-- Powers of ten over `ℤ`. -/
def pow10 (n : Nat) : Int := Int.ofNat (Nat.pow 10 n)

/-- An exact decimal value `m × 10^e` (sign carried by `m`). -/
structure Dec10 where
  m : Int
  e : Int
deriving DecidableEq, Repr

/-- Whether `m × 10^e ≥ t` for an integer bound `t`, by clearing the
power of ten onto whichever side keeps everything integral. -/
def Dec10.geInt (d : Dec10) (t : Int) : Bool :=
  if 0 ≤ d.e then t ≤ d.m * pow10 d.e.toNat
  else t * pow10 (-d.e).toNat ≤ d.m

/-- Whether `m × 10^e ≤ t`. -/
def Dec10.leInt (d : Dec10) (t : Int) : Bool :=
  if 0 ≤ d.e then d.m * pow10 d.e.toNat ≤ t
  else d.m ≤ t * pow10 (-d.e).toNat

/-- Truncation of `m × 10^e` toward zero (`Int.tdiv` is Python's
`int()` rounding on floats). -/
def Dec10.truncToZero (d : Dec10) : Int :=
  if 0 ≤ d.e then d.m * pow10 d.e.toNat
  else Int.tdiv d.m (pow10 (-d.e).toNat)

/-- A Python float: exact decimal for finite values, plus the three
special values.  Binary64 rounding of finite values is not modelled;
overflow to an infinity is (it decides whether `int()` raises). -/
inductive PyFloat
  | finite (d : Dec10)
  | inf
  | negInf
  | nan
deriving DecidableEq, Repr

/-- A Python value as it can appear as an amount in the configuration. -/
inductive PyVal
  | vInt (n : ℤ)
  | vFloat (f : PyFloat)
  | vStr (s : String)
  | vNone
deriving DecidableEq, Repr

/-- The Python exceptions distinguished by `parse_amount`. -/
inductive PyErr
  | overflowError
  | valueError
  | typeError
deriving DecidableEq, Repr

/-- Magnitude at which `float()` of a decimal string overflows to an
infinity (the round-to-nearest threshold of binary64,
`2^1024 - 2^970`). -/
def overflowBound : Int := Int.ofNat (Nat.pow 2 1024 - Nat.pow 2 970)

/-- Classify an exact decimal value as a Python float. -/
def mkPyFloat (d : Dec10) : PyFloat :=
  if d.geInt overflowBound then .inf
  else if d.leInt (-overflowBound) then .negInf
  else .finite d

/-- Parse the exponent part `[+-]?\d+` of a float literal, requiring
the whole remaining input to be consumed. -/
def expPart? : List Char → Option Int
  | '+' :: r => if r ≠ [] && r.all (·.isDigit) then some (digitsVal r) else none
  | '-' :: r => if r ≠ [] && r.all (·.isDigit) then some (-(digitsVal r : Int)) else none
  | r => if r ≠ [] && r.all (·.isDigit) then some (digitsVal r) else none

/-- Parse the mantissa `\d*(\.\d*)?` (at least one digit overall) of a
float literal, returning its exact decimal value and the unconsumed
input. -/
def decMantissa? (l : List Char) : Option (Dec10 × List Char) :=
  let ip := l.takeWhile (·.isDigit)
  let r1 := l.dropWhile (·.isDigit)
  match r1 with
  | '.' :: r2 =>
    let fp := r2.takeWhile (·.isDigit)
    let r3 := r2.dropWhile (·.isDigit)
    if ip = [] && fp = [] then none
    else some (⟨digitsVal ip * pow10 fp.length + digitsVal fp, -(fp.length : Int)⟩, r3)
  | _ => if ip = [] then none else some (⟨(digitsVal ip : Int), 0⟩, r1)

/-- Value of an unsigned decimal/scientific literal, if well formed. -/
def pyDecimal? (l : List Char) : Option Dec10 :=
  match decMantissa? l with
  | none => none
  | some (d, rest) =>
    match rest with
    | [] => some d
    | 'e' :: r2 =>
      match expPart? r2 with
      | some e => some ⟨d.m, d.e + e⟩
      | none => none
    | _ => none

/-- Python `float(s)` on an already stripped, lowercased string:
recognizes signed `inf`/`infinity`/`nan` and decimal/scientific
literals; anything else raises `ValueError`. -/
def pyFloatOfString (s : String) : Except PyErr PyFloat :=
  let (neg, r) :=
    match s.data with
    | '+' :: r => (false, r)
    | '-' :: r => (true, r)
    | r => (false, r)
  let rs : String := ⟨r⟩
  if rs = "inf" || rs = "infinity" then
    .ok (if neg then .negInf else .inf)
  else if rs = "nan" then .ok .nan
  else
    match pyDecimal? r with
    | some d => .ok (mkPyFloat (if neg then ⟨-d.m, d.e⟩ else d))
    | none => .error .valueError

/-- Python `int()` of a float: truncates finite values toward zero,
raises `OverflowError` on infinities and `ValueError` on NaN. -/
def pyIntOfFloat : PyFloat → Except PyErr Int
  | .finite d => .ok d.truncToZero
  | .inf => .error .overflowError
  | .negInf => .error .overflowError
  | .nan => .error .valueError

/-- The body of `parse_amount` before its `try`/`except` (src/main.py):
ints pass through, floats are truncated, strings are stripped, lowered
and converted via `float`, and any other value raises `TypeError` from
`int(amount_value)`.  The code's `if 'e' in amount_value` test selects
between two identical conversions and is mirrored as such. -/
def parseAmountTry : PyVal → Except PyErr Int
  | .vInt n => .ok n
  | .vFloat f => pyIntOfFloat f
  | .vStr s =>
    let s1 := pyLower (pyStrip s)
    if s1.data.contains 'e' then
      match pyFloatOfString s1 with
      | .ok f => pyIntOfFloat f
      | .error e => .error e
    else
      match pyFloatOfString s1 with
      | .ok f => pyIntOfFloat f
      | .error e => .error e
  | .vNone => .error .typeError

/-- Shallow embedding of `parse_amount` (src/main.py): the
`except (ValueError, TypeError)` handler returns 0, while an
`OverflowError` escapes (`.error ()`). -/
def parse_amount (v : PyVal) : Except Unit Int :=
  match parseAmountTry v with
  | .ok n => .ok n
  | .error .overflowError => .error ()
  | .error .valueError => .ok 0
  | .error .typeError => .ok 0

example : parse_amount (.vStr "1e10") = .ok 10000000000 := by decide
example : parse_amount (.vStr " 25000 ") = .ok 25000 := by decide
example : parse_amount (.vStr "3.9") = .ok 3 := by decide
example : parse_amount (.vStr "-3.9") = .ok (-3) := by decide
example : parse_amount (.vStr "abc") = .ok 0 := by decide
example : parse_amount (.vStr "1,000") = .ok 0 := by decide
example : parse_amount (.vStr "inf") = .error () := by decide
example : parse_amount (.vStr "nan") = .ok 0 := by decide
example : parse_amount .vNone = .ok 0 := by decide
example : parse_amount (.vStr "1e999") = .error () := by decide

/-! ## Cumulative cash limit (`calculate_cumulative_limit`)

The `auto_cash.amounts` dict is an insertion-ordered association list;
`timePassed` and `executedToday` stand for the values of
`has_auto_cash_time_passed` and `has_auto_cash_executed_today` at the
moment of the call.  An uncaught exception from `parse_amount`
propagates. -/

/-- Python `list.index`: index of the first occurrence, if any. -/
def pyIndex : List String → String → Option Nat
  | [], _ => none
  | a :: l, x => if a = x then some 0 else (pyIndex l x).map (· + 1)

/-- Python `dict.get(k, d)` over the association-list model. -/
def pyDictGet (l : List (String × PyVal)) (k : String) (d : PyVal) : PyVal :=
  match l.find? (fun p => p.1 = k) with
  | some p => p.2
  | none => d

/-- The `for i in range(effective_position + 1)` accumulation loop of
`calculate_cumulative_limit`, over the list of visited indices. -/
def cumulativeLoop (amounts : List (String × PyVal)) (order : List String) :
    Int → List Nat → Except Unit Int
  | acc, [] => .ok acc
  | acc, i :: rest =>
    match parse_amount (pyDictGet amounts (order.getD i "") (PyVal.vInt 0)) with
    | .ok a => cumulativeLoop amounts order (acc + a) rest
    | .error e => .error e

/-- Shallow embedding of `calculate_cumulative_limit` (src/main.py). -/
def calculate_cumulative_limit (amounts : List (String × PyVal))
    (currentDayName : String) (timePassed executedToday : Bool) : Except Unit Int :=
  if (amounts.map Prod.fst).isEmpty then .ok 0
  else
    match pyIndex (amounts.map Prod.fst) currentDayName with
    | none => .ok 0
    | some currentPosition =>
      if timePassed && executedToday then
        cumulativeLoop amounts (amounts.map Prod.fst) 0 (List.range (currentPosition + 1))
      else if currentPosition = 0 then .ok 0
      else cumulativeLoop amounts (amounts.map Prod.fst) 0 (List.range currentPosition)

/-- The weekday names of the scheduler (`WEEKDAYS`), Monday first. -/
def WEEKDAYS : List String :=
  ["Monday", "Tuesday", "Wednesday", "Thursday", "Friday", "Saturday", "Sunday"]

/-- An integer-amount table embedded as configuration values. -/
def intTable (tbl : List (String × Int)) : List (String × PyVal) :=
  tbl.map fun p => (p.1, PyVal.vInt p.2)

example :
    calculate_cumulative_limit
      (intTable [("Monday", 10), ("Tuesday", 20), ("Wednesday", 30)])
      ("Wednesday") false false = .ok 30 := by decide
example :
    calculate_cumulative_limit
      (intTable [("Monday", 10), ("Tuesday", 20), ("Wednesday", 30)])
      ("Wednesday") true true = .ok 60 := by decide

/-! ## Leaderboard response parsing (`parse_lb_cash_response`)

The two `re.findall` patterns are `(\\d{1,3}(?:,\\d{3})*|\\d{4,})` on a
rank-1 line and `(\\d{1,3}(?:,\\d{3})+|\\d{6,})` for the whole-body
fallback.  Scanning is leftmost and non-overlapping, the first
alternative is preferred, `\\d{1,3}` backtracks from three digits down
to one, and the group star/plus is greedy with nothing after it. -/

/-- Split on a newline character (Python `str.split`). -/
def splitLinesAux : List Char → List Char → List String
  | acc, [] => [⟨acc.reverse⟩]
  | acc, '\n' :: r => ⟨acc.reverse⟩ :: splitLinesAux [] r
  | acc, c :: r => splitLinesAux (c :: acc) r

/-- Python `description.split(chr(10))`. -/
def pySplitLines (s : String) : List String := splitLinesAux [] s.data

/-- Consume the greedy `(?:,\\d{3})*` tail of the number pattern. -/
def commaGroups : List Char → List Char × List Char
  | ',' :: a :: b :: c :: r =>
    if a.isDigit && b.isDigit && c.isDigit then
      let (g, r2) := commaGroups r
      (',' :: a :: b :: c :: g, r2)
    else ([], ',' :: a :: b :: c :: r)
  | l => ([], l)

/-- Consume exactly `k` leading digits, if present. -/
def exactDigits : Nat → List Char → Option (List Char × List Char)
  | 0, l => some ([], l)
  | _ + 1, [] => none
  | k + 1, c :: r =>
    if c.isDigit then
      match exactDigits k r with
      | some (ds, r2) => some (c :: ds, r2)
      | none => none
    else none

/-- One backtracking branch of `\\d{1,3}(?:,\\d{3})(*|+)`: exactly `k`
digits and then the comma groups, which must be nonempty when
`requireComma` is set. -/
def numAlt1K (requireComma : Bool) (k : Nat) (l : List Char) :
    Option (List Char × List Char) :=
  match exactDigits k l with
  | none => none
  | some (ds, r) =>
    let (g, r2) := commaGroups r
    if requireComma && g.isEmpty then none else some (ds ++ g, r2)

/-- The second alternative `\\d{minPlain,}`: a maximal digit run of at
least `minPlain` digits. -/
def numAlt2 (minPlain : Nat) (l : List Char) : Option (List Char × List Char) :=
  let ds := l.takeWhile (·.isDigit)
  if minPlain ≤ ds.length then some (ds, l.dropWhile (·.isDigit)) else none

/-- Attempt the whole alternation at one position. -/
def numTokenAt (requireComma : Bool) (minPlain : Nat) (l : List Char) :
    Option (List Char × List Char) :=
  numAlt1K requireComma 3 l <|> numAlt1K requireComma 2 l <|>
    numAlt1K requireComma 1 l <|> numAlt2 minPlain l

/-- `re.findall` scan: try the position, emit the match and resume after
it, else advance one character.  The fuel bounds the scan steps. -/
def findallNumsAux (requireComma : Bool) (minPlain : Nat) :
    Nat → List Char → List (List Char)
  | 0, _ => []
  | _ + 1, [] => []
  | fuel + 1, l@(_ :: rest) =>
    match numTokenAt requireComma minPlain l with
    | some (tok, r) => tok :: findallNumsAux requireComma minPlain fuel r
    | none => findallNumsAux requireComma minPlain fuel rest

/-- All number tokens of the given pattern in the string. -/
def findallNums (requireComma : Bool) (minPlain : Nat) (l : List Char) :
    List (List Char) :=
  findallNumsAux requireComma minPlain l.length l

/-- The anchored rank-1 regex `^\\*?\\*?1[\\.\\)\\:]`. -/
def matchAnchorRank1 (l : List Char) : Bool :=
  let l1 := match l with | '*' :: r => r | _ => l
  let l2 := match l1 with | '*' :: r => r | _ => l1
  match l2 with
  | '1' :: c :: _ => c = '.' || c = ')' || c = ':'
  | _ => false

/-- The `is_first = any([...])` test of `parse_lb_cash_response`. -/
def isFirstRankLine (ls : String) : Bool :=
  pyStartsWith ls ("**1.**") || pyStartsWith ls ("**1**") ||
    pyStartsWith ls ("1.") || pyStartsWith ls ("1)") ||
    pyContains ls ("**1.**") || pyContains ls ("**1**.") ||
    matchAnchorRank1 ls.data

/-- `match.replace(chr(44), "").isdigit()` and the length filter: keep
tokens whose digits (commas removed) number at least `minLen`, as their
numeric value. -/
def cleanAmounts (minLen : Nat) (toks : List (List Char)) : List Nat :=
  toks.filterMap fun t =>
    let clean := t.filter (fun c => c ≠ ',')
    if (!clean.isEmpty && clean.all (·.isDigit)) && minLen ≤ clean.length then
      some (digitsVal clean)
    else none

/-- Python `max` over a nonempty list of naturals. -/
def pyMaxNat (l : List Nat) : Nat := l.foldl Nat.max 0

/-- The per-line scan of `parse_lb_cash_response`: the first nonempty
rank-1 line whose extracted amounts are nonempty yields their maximum;
otherwise scanning continues with the remaining lines. -/
def lbLineScan : List String → Option Nat
  | [] => none
  | line :: rest =>
    let ls := pyStrip line
    if ls = "" then lbLineScan rest
    else if isFirstRankLine ls then
      let amounts := cleanAmounts 4 (findallNums false 4 ls.data)
      if amounts.isEmpty then lbLineScan rest else some (pyMaxNat amounts)
    else lbLineScan rest

/-- A message embed as consumed by the parser. -/
structure Embed where
  description : String
deriving DecidableEq, Repr

/-- Shallow embedding of `parse_lb_cash_response` (src/main.py): first
embed, per-line rank-1 scan, then the whole-body fallback pattern whose
amounts are sorted descending and the first taken (their maximum). -/
def parse_lb_cash_response (embeds : List Embed) : Option Nat :=
  match embeds with
  | [] => none
  | embed :: _ =>
    let description := embed.description
    if description = "" then none
    else
      match lbLineScan (pySplitLines description) with
      | some a => some a
      | none =>
        let amounts := cleanAmounts 0 (findallNums true 6 description.data)
        if amounts.isEmpty then none else some (pyMaxNat amounts)

example :
    parse_lb_cash_response
      [⟨"**1.** PlayerX — 1,234,567 cash\n**2.** PlayerY — 500 cash"⟩] =
      some 1234567 := by decide
example :
    parse_lb_cash_response [⟨"**1.** PlayerX — 12345 cash"⟩] = none := by decide
example :
    parse_lb_cash_response [⟨"junk\nmore junk 123,456"⟩] = some 123456 := by decide
example : parse_lb_cash_response [⟨"nothing here"⟩] = none := by decide

/-! ## The rate-limited client (`_handle_rate_limit`, `send_message`)

The retry loop `for attempt in range(3)` is modelled as a recursion on
the remaining iteration count; simulated time is a rational number of
seconds and every `time.sleep` advances it.  The network is a function
from attempt index to that attempt's outcome, and the two
`random.uniform` draws are oracle functions constrained by hypotheses
in the theorems.  Returned alongside the outcome is the issue time of
every HTTP attempt that was made. -/

/-- An HTTP response: status code, the JSON `retry_after` field read on
a 429 (the env supplies the code's default 5 when absent), and the
optional `X-RateLimit-Remaining`/`X-RateLimit-Reset` header pair. -/
structure HttpResp where
  code : Nat
  retryAfter : ℚ
  rlHeader : Option (Nat × ℚ)

/-- Outcome of one HTTP attempt: a response, a socket timeout
(`requests.exceptions.Timeout`), or another request exception. -/
inductive CallOutcome
  | resp (r : HttpResp)
  | timeout
  | reqError

/-- The environment of one `send_message` call. -/
structure SendEnv where
  outcome : Nat → CallOutcome
  preJitter : Nat → ℚ
  backoffJitter : Nat → ℚ

/-- Shallow embedding of `_handle_rate_limit` (src/main.py): on a 429,
sleep the server wait and report `true`; otherwise, if the rate-limit
header shows zero remaining calls, sleep until the reset (plus half a
second) and report `false`. -/
def handle_rate_limit (r : HttpResp) (now : ℚ) : Bool × ℚ :=
  if r.code = 429 then (true, now + r.retryAfter)
  else
    match r.rlHeader with
    | some (remaining, reset) =>
      if remaining = 0 then (false, now + max 0 (reset - now) + 1/2)
      else (false, now)
    | none => (false, now)

/-- Result of a `send_message` call in the model. -/
inductive SendOutcome
  | sent
  | failed
deriving DecidableEq, Repr

/-- The body of `send_message`'s retry loop (src/main.py).  Arguments:
iterations left in `range(3)`, current value of `attempt`, current
simulated time.  Each iteration sleeps the pre-send jitter, issues the
request, and then branches exactly as the code does: 429 → handled by
`_handle_rate_limit` and `continue`; 200 → success; 401/403/404 →
immediate failure; other statuses → exponential backoff `2^attempt`
plus a jitter and retry while attempts remain; timeout → backoff
`2^attempt` without jitter and retry while attempts remain; any other
request exception → immediate failure. -/
def send_message_loop (env : SendEnv) : Nat → Nat → ℚ → SendOutcome × List ℚ
  | 0, _, _ => (.failed, [])
  | rem + 1, attempt, now =>
    let t := now + env.preJitter attempt
    match env.outcome attempt with
    | .timeout =>
      if attempt < 2 then
        let res := send_message_loop env rem (attempt + 1) (t + 2 ^ attempt)
        (res.1, t :: res.2)
      else (.failed, [t])
    | .reqError => (.failed, [t])
    | .resp r =>
      let h := handle_rate_limit r t
      if h.1 then
        let res := send_message_loop env rem (attempt + 1) h.2
        (res.1, t :: res.2)
      else if r.code = 200 then (.sent, [t])
      else if r.code = 401 || r.code = 403 || r.code = 404 then (.failed, [t])
      else if attempt < 2 then
        let res := send_message_loop env rem (attempt + 1) (h.2 + 2 ^ attempt + env.backoffJitter attempt)
        (res.1, t :: res.2)
      else (.failed, [t])

/-- Shallow embedding of `send_message` (src/main.py): three loop
iterations starting at time 0; falling off the loop returns `None`. -/
def send_message (env : SendEnv) : SendOutcome × List ℚ :=
  send_message_loop env 3 0 0

/-! ## Feature toggles and the lock sequence
(`_set_feature_states`, `save_config`, `_async_lock_sequence`)

The configuration document is modelled by its feature entries: an
association list from feature name to the `enabled` flag (the rest of
each feature's sub-document is untouched by these operations).
`save_config` catches every exception and reports `False`, leaving the
in-memory document as it was; its outcome is an oracle boolean. -/

/-- `TOGGLEABLE_FEATURES` (src/main.py). -/
def TOGGLEABLE_FEATURES : List String :=
  ["auto_cash", "cash_checks", "add_cash_to_roles"]

/-- The feature view of the in-memory configuration document. -/
abbrev FeatureConfig : Type := List (String × Bool)

/-- The assignment of the enabled flag of one feature entry. -/
def setEnabledEntry (cfg : FeatureConfig) (feature : String) (enabled : Bool) :
    FeatureConfig :=
  cfg.map fun p => if p.1 = feature then (p.1, enabled) else p

/-- One iteration of the `for feature in self.TOGGLEABLE_FEATURES` loop
of `_set_feature_states`: mutate only the features present in the
document. -/
def setFeatureStep (enabled : Bool) (cfg : FeatureConfig) (feature : String) :
    FeatureConfig :=
  if (cfg.map Prod.fst).contains feature then setEnabledEntry cfg feature enabled
  else cfg

/-- Shallow embedding of `_set_feature_states` (src/main.py): mutate
the in-memory flags first, then save when requested; the call reports
the save outcome (and `true` when no save was requested). -/
def set_feature_states (cfg : FeatureConfig) (enabled save saveOk : Bool) :
    FeatureConfig × Bool :=
  let cfg2 := TOGGLEABLE_FEATURES.foldl (setFeatureStep enabled) cfg
  (cfg2, if save then saveOk else true)

/-- An observable step of the lock sequence. -/
inductive LockStep
  | lockChannel (success : Bool)
  | disableAllFeatures
  | sendTyped (content : String)
  | sleepSecs (q : ℚ)

/-- Shallow embedding of `_async_lock_sequence` (src/main.py):
lock the channel; on failure return `False` at once; otherwise disable
every feature (with save), send `$lb`, wait five seconds, and send the
closing message.  `lockResult` is the outcome of the `lock_channel`
HTTP exchange and `saveOk` the outcome of the config save. -/
def async_lock_sequence (lockResult saveOk : Bool) (cfg : FeatureConfig)
    (closingMessage : String) : Bool × List LockStep × FeatureConfig :=
  if !lockResult then (false, [LockStep.lockChannel false], cfg)
  else
    let r := set_feature_states cfg false true saveOk
    (true,
      [LockStep.lockChannel true, LockStep.disableAllFeatures,
        LockStep.sendTyped ("$lb"), LockStep.sleepSecs 5,
        LockStep.sendTyped closingMessage],
      r.1)

/-! ## Task execution and the execution record
(`execute_task`, the cleanup of `self.last_execution`)

`self.last_execution` is a dict keyed by composite strings
`taskname_YYYY-MM-DD_HH:MM`; only its key set in insertion order
matters (the stored datetimes are never read), so it is modelled as a
list of keys.  `min()` over the keys compares strings by code point,
keeping the first minimum. -/

/-- Code-point lexicographic strict order on character lists (Python
string comparison). -/
def lexLtChars : List Char → List Char → Bool
  | [], [] => false
  | [], _ :: _ => true
  | _ :: _, [] => false
  | a :: as, b :: bs =>
    if a.toNat < b.toNat then true
    else if b.toNat < a.toNat then false
    else lexLtChars as bs

/-- Python `<` on strings. -/
def pyStrLt (a b : String) : Bool := lexLtChars a.data b.data

/-- Python `min()` over a key list: the first minimal element. -/
def pyMinKey : List String → String
  | [] => ""
  | a :: rest => rest.foldl (fun acc k => if pyStrLt k acc then k else acc) a

/-- Dict assignment on the key-set model: a fresh key is appended, an
existing key keeps its position. -/
def dictSetKey (keys : List String) (key : String) : List String :=
  if keys.contains key then keys else keys ++ [key]

/-- The execution-record insertion and cleanup of `execute_task`
(src/main.py): record the key, then, if more than 1000 entries remain,
delete the minimal key. -/
def recordExecution (keys : List String) (key : String) : List String :=
  let keys2 := dictSetKey keys key
  if 1000 < keys2.length then keys2.erase (pyMinKey keys2) else keys2

/-- A task entry as read from the configuration document. -/
structure TaskConfig where
  lockTime : String
  action : String
  message : String
deriving DecidableEq, Repr

/-- The current instant as `execute_task` observes it: the wall clock
plus the minute key `strftime` renders into the execution key. -/
structure SchedNow where
  clock : NowTime
  minuteKey : String
deriving DecidableEq, Repr

/-- An externally visible action dispatched by `execute_task`.  The
lock/unlock sequences run in a background thread; the dispatch itself
carries the resolved closing/opening message. -/
inductive TaskAction
  | dispatchLockSeq (message : String)
  | dispatchUnlockSeq (message : String)
  | customPermUpdate (success : Bool)
  | sendCustomMessage (message : String)
deriving DecidableEq, Repr

/-- The message-defaulting chain of the lock/unlock branches: the
stripped task message, else the stripped document message, else the
hard-coded fallback. -/
def resolveMessage (taskMsg : String) (cfgMsg : Option String) (fallback : String) :
    String :=
  let m := pyStrip taskMsg
  if m = "" then
    let m2 := pyStrip (cfgMsg.getD fallback)
    if m2 = "" then fallback else m2
  else m

/-- Shallow embedding of `execute_task` (src/main.py).  `customResult`
is the outcome of `update_channel_permissions` in the custom branch;
`closingCfg`/`openingCfg` are the optional document-level messages.  A
parse failure of the time specification propagates (it is caught by the
sweep in `check_all_tasks`).  Lock and unlock dispatches always count
as success; a custom action records the key only on success. -/
def execute_task (keys : List String) (taskName : String) (tc : TaskConfig)
    (now : SchedNow) (customResult : Bool) (closingCfg openingCfg : Option String) :
    Except Unit (List String × List TaskAction) :=
  let executionKey := taskName ++ "_" ++ now.minuteKey
  if keys.contains executionKey then .ok (keys, [])
  else
    match should_execute tc.lockTime now.clock with
    | .error e => .error e
    | .ok false => .ok (keys, [])
    | .ok true =>
      if tc.action = "lock" then
        let msg := resolveMessage tc.message closingCfg ("Channel has been locked.")
        .ok (recordExecution keys executionKey, [TaskAction.dispatchLockSeq msg])
      else if tc.action = "unlock" then
        let msg := resolveMessage tc.message openingCfg ("Channel has been unlocked.")
        .ok (recordExecution keys executionKey, [TaskAction.dispatchUnlockSeq msg])
      else
        let message := pyStrip tc.message
        if customResult then
          let acts :=
            if message ≠ "" then
              [TaskAction.customPermUpdate true, TaskAction.sendCustomMessage message]
            else [TaskAction.customPermUpdate true]
          .ok (recordExecution keys executionKey, acts)
        else .ok (keys, [TaskAction.customPermUpdate false])

/-- Repeated invocation of `execute_task` with an unchanged environment
(the same wall-clock minute), accumulating the dispatched actions. -/
def execute_task_iter (taskName : String) (tc : TaskConfig) (now : SchedNow)
    (customResult : Bool) (closingCfg openingCfg : Option String) :
    Nat → List String → Except Unit (List String × List TaskAction)
  | 0, keys => .ok (keys, [])
  | n + 1, keys =>
    match execute_task keys taskName tc now customResult closingCfg openingCfg with
    | .error e => .error e
    | .ok (keys2, acts) =>
      match execute_task_iter taskName tc now customResult closingCfg openingCfg n keys2 with
      | .error e => .error e
      | .ok (keys3, acts2) => .ok (keys3, acts ++ acts2)

/-! ## Theorems -/

/-- The common timestamp suffix of the filler keys. -/
def c8Tail : String := "_2021-01-01_00:00"

/-- A filler key of task `c<i>` with a 2021 target minute. -/
def c8Key (i : Nat) : String := ⟨'c' :: ((toString i).data ++ c8Tail.data)⟩

/-- A full execution record: the key of task `b` with the earliest
target minute (2020), then 999 filler keys of tasks `c0`..`c998` with
2021 minutes — 1000 entries. -/
def c8Keys : List String :=
  ("b_2020-01-01_00:00") :: (List.range 999).map c8Key

/-- The newest key: task `a`, target minute 2025-12-31 23:59. -/
def c8NewKey : String := "a_2025-12-31_23:59"

/-- The delay the loop inserts after attempt `k` before the next
attempt is issued (when one is). -/
def stepAdvance (env : SendEnv) (k : Nat) : ℚ :=
  match env.outcome k with
  | .timeout => 2 ^ k
  | .reqError => 0
  | .resp r => if r.code = 429 then r.retryAfter else 2 ^ k + env.backoffJitter k

/-- No header-driven pre-emptive sleep is triggered by this outcome. -/
def headerQuiet : CallOutcome → Prop
  | .resp r => r.code ≠ 429 → ∀ rem rst, r.rlHeader = some (rem, rst) → rem ≠ 0
  | _ => True

/-- An outcome that retries without a permanent class or a 429. -/
def transientOutcome (o : CallOutcome) : Prop :=
  o = .timeout ∨ ∃ rr : HttpResp, o = .resp rr ∧ ¬(200 ≤ rr.code ∧ rr.code < 300) ∧
    rr.code ≠ 401 ∧ rr.code ≠ 403 ∧ rr.code ≠ 404 ∧ rr.code ≠ 429

/-- An environment answering every attempt with HTTP 429 and a
2-second wait directive. -/
def envC4 : SendEnv :=
  ⟨fun _ => .resp ⟨429, 2, none⟩, fun _ => 1/4, fun _ => 1/2⟩

/-- An environment in which every attempt times out. -/
def envC5 : SendEnv :=
  ⟨fun _ => .timeout, fun _ => 1/4, fun _ => 0⟩

/-- An environment answering the first attempt with HTTP 403. -/
def envC5p : SendEnv :=
  ⟨fun _ => .resp ⟨403, 5, none⟩, fun _ => 1/2, fun _ => 0⟩

/-- Claim C7: the time-spec parser maps "Monday 10:30pm" to hour 22,
minute 30, weekday 0; "14:30" to hour 14, minute 30, no weekday;
"garbage" to an invalid-format failure; and whenever a specification
parses, `should_execute` holds exactly when the weekday is absent or
equal to the current weekday and the current hour and minute equal the
parsed ones. -/
theorem claim_C7_time_matcher :
    parse_time_format ("Monday 10:30pm") = .ok ⟨22, 30, some 0⟩ ∧
    parse_time_format ("14:30") = .ok ⟨14, 30, none⟩ ∧
    parse_time_format ("garbage") = .error () ∧
    ∀ s p now, parse_time_format s = .ok p →
      (should_execute s now = .ok true ↔
        ((p.weekday = none ∨ p.weekday = some now.weekday) ∧
          now.hour = p.hour ∧ now.minute = p.minute)) := by
  refine ⟨rfl, rfl, rfl, ?_⟩
  intro s p now h
  have he : should_execute s now =
      (match p.weekday with
       | some w =>
         if now.weekday ≠ w then Except.ok false
         else Except.ok (now.hour == p.hour && now.minute == p.minute)
       | none => Except.ok (now.hour == p.hour && now.minute == p.minute)) := by
    unfold should_execute
    rw [h]
  rw [he]
  cases hw : p.weekday with
  | none =>
    dsimp only
    simp only [Except.ok.injEq, Bool.and_eq_true, beq_iff_eq]
    tauto
  | some w =>
    dsimp only
    by_cases hne : now.weekday = w
    · rw [if_neg (not_not_intro hne)]
      simp only [Except.ok.injEq, Bool.and_eq_true, beq_iff_eq, Option.some.injEq,
        reduceCtorEq, false_or]
      constructor
      · rintro ⟨h1, h2⟩
        exact ⟨hne.symm, h1, h2⟩
      · rintro ⟨-, h1, h2⟩
        exact ⟨h1, h2⟩
    · rw [if_pos hne]
      simp only [Except.ok.injEq, Bool.false_eq_true, false_iff, not_and,
        Option.some.injEq, reduceCtorEq, false_or]
      intro h1
      exact absurd h1.symm hne

/-- Claim C7 witness: a concrete instantiation of the `should_execute`
characterization. -/
theorem claim_C7_time_matcher_witness :
    should_execute ("14:30") ⟨4, 14, 30⟩ = .ok true := by
  have h := claim_C7_time_matcher.2.2.2 ("14:30") ⟨14, 30, none⟩ ⟨4, 14, 30⟩ rfl
  exact h.mpr (by simp)

/-- Claim C10 counterexample: `parse_amount` is not total.  A value
whose float conversion is infinite makes `int()` raise an uncaught
OverflowError, so "inf" (and "1e999", and an infinite float value) do
not return an integer. -/
theorem claim_C10_counterexample :
    parse_amount (.vStr "inf") = .error () ∧
    parse_amount (.vStr "1e999") = .error () ∧
    parse_amount (.vFloat .inf) = .error () := by
  exact ⟨by decide, by decide, by decide⟩

/-- Claim C10 amended: `parse_amount` returns an integer for every
input value except those whose float conversion is infinite, where the
uncaught OverflowError propagates; numeric strings (scientific
notation included) are converted by float truncation toward zero, and
any value that fails to parse as a number yields 0. -/
theorem claim_C10_amended :
    (∀ n, parse_amount (.vInt n) = .ok n) ∧
    parse_amount .vNone = .ok 0 ∧
    parse_amount (.vStr "1e10") = .ok 10000000000 ∧
    parse_amount (.vStr "3.9") = .ok 3 ∧
    parse_amount (.vStr "abc") = .ok 0 ∧
    parse_amount (.vStr "1,000") = .ok 0 ∧
    (∀ s d, pyFloatOfString (pyLower (pyStrip s)) = .ok (.finite d) →
      parse_amount (.vStr s) = .ok d.truncToZero) ∧
    (∀ s, pyFloatOfString (pyLower (pyStrip s)) = .error .valueError →
      parse_amount (.vStr s) = .ok 0) ∧
    (∀ s, (pyFloatOfString (pyLower (pyStrip s)) = .ok .inf ∨
        pyFloatOfString (pyLower (pyStrip s)) = .ok .negInf) →
      parse_amount (.vStr s) = .error ()) := by
  refine ⟨fun n => rfl, by decide, by decide, by decide, by decide, by decide,
    ?_, ?_, ?_⟩
  · intro s d h
    unfold parse_amount parseAmountTry
    by_cases he : (pyLower (pyStrip s)).data.contains 'e' <;> simp [he, h, pyIntOfFloat]
  · intro s h
    unfold parse_amount parseAmountTry
    by_cases he : (pyLower (pyStrip s)).data.contains 'e' <;> simp [he, h, pyIntOfFloat]
  · intro s h
    unfold parse_amount parseAmountTry
    rcases h with h | h <;>
      by_cases he : (pyLower (pyStrip s)).data.contains 'e' <;>
        simp [he, h, pyIntOfFloat]

/-- Claim C10 amended witness: the float-truncation characterization at
a concrete numeric string. -/
theorem claim_C10_amended_witness :
    parse_amount (.vStr "7.5") = .ok (Dec10.truncToZero ⟨75, -1⟩) :=
  claim_C10_amended.2.2.2.2.2.2.1 ("7.5") ⟨75, -1⟩ (by decide)

/-- Claim C2: when the permission-update step of the lock sequence
fails, the sequence aborts: the feature-disable step never runs (the
in-memory feature flags are unchanged), and neither the leaderboard
query nor the closing message is sent. -/
theorem claim_C2_lock_abort (lockResult saveOk : Bool) (cfg : FeatureConfig)
    (msg : String) (h : lockResult = false) :
    (async_lock_sequence lockResult saveOk cfg msg).1 = false ∧
    (async_lock_sequence lockResult saveOk cfg msg).2.2 = cfg ∧
    LockStep.disableAllFeatures ∉ (async_lock_sequence lockResult saveOk cfg msg).2.1 ∧
    (∀ m, LockStep.sendTyped m ∉ (async_lock_sequence lockResult saveOk cfg msg).2.1) := by
  subst h
  refine ⟨rfl, rfl, ?_, ?_⟩
  · simp [async_lock_sequence]
  · intro m
    simp [async_lock_sequence]

/-- Claim C2 witness: the abort at a concrete configuration. -/
theorem claim_C2_lock_abort_witness :
    (async_lock_sequence false true [("auto_cash", true)] ("closing")).2.2 =
      [("auto_cash", true)] :=
  (claim_C2_lock_abort false true [("auto_cash", true)] ("closing") rfl).2.1

/-- Claim C9 counterexample: a feature-toggle set-all whose save step
fails does not leave the in-memory flags as they were: the flags are
mutated before the save is attempted, so the failed operation leaves
them at the new target values. -/
theorem claim_C9_counterexample :
    (set_feature_states
        [("auto_cash", false), ("cash_checks", false), ("add_cash_to_roles", false)]
        true true false).2 = false ∧
    (set_feature_states
        [("auto_cash", false), ("cash_checks", false), ("add_cash_to_roles", false)]
        true true false).1 =
      [("auto_cash", true), ("cash_checks", true), ("add_cash_to_roles", true)] := by
  exact ⟨rfl, by decide⟩

/-- One toggle step equals an entry-wise update, whether or not the
feature is present. -/
theorem setFeatureStep_eq_map (cfg : FeatureConfig) (f : String) (b : Bool) :
    setFeatureStep b cfg f = cfg.map fun p => if p.1 = f then (p.1, b) else p := by
  unfold setFeatureStep
  by_cases h : (cfg.map Prod.fst).contains f = true
  · rw [if_pos h]
    rfl
  · rw [if_neg h]
    have hne : ∀ p ∈ cfg, p.1 ≠ f := by
      intro p hp heq
      apply h
      exact List.elem_iff.mpr (List.mem_map.mpr ⟨p, hp, heq⟩)
    conv_lhs => rw [show cfg = cfg.map id from (List.map_id cfg).symm]
    refine List.map_congr_left ?_
    intro p hp
    simp [hne p hp]

/-- Claim C9 amended: a failed configuration save is reported to the
caller as a failed result rather than a crash, and `save_config` itself
does not alter the in-memory document; but `_set_feature_states`
mutates the in-memory flags before saving, so a set-all whose save step
fails leaves every present toggleable feature at the new target value,
not at its previous value. -/
theorem claim_C9_amended (cfg : FeatureConfig) (enabled saveOk : Bool) :
    (set_feature_states cfg enabled true saveOk).2 = saveOk ∧
    (set_feature_states cfg enabled true saveOk).1 =
      cfg.map fun p =>
        if TOGGLEABLE_FEATURES.contains p.1 then (p.1, enabled) else p := by
  constructor
  · rfl
  · show TOGGLEABLE_FEATURES.foldl (setFeatureStep enabled) cfg = _
    simp only [TOGGLEABLE_FEATURES, List.foldl_cons, List.foldl_nil]
    rw [setFeatureStep_eq_map, setFeatureStep_eq_map, setFeatureStep_eq_map,
      List.map_map, List.map_map]
    refine List.map_congr_left ?_
    intro p _
    by_cases h1 : p.1 = "auto_cash" <;>
      by_cases h2 : p.1 = "cash_checks" <;>
        by_cases h3 : p.1 = "add_cash_to_roles" <;>
          simp_all [Function.comp]

/-- An index found by `pyIndex` is within bounds. -/
theorem pyIndex_lt_length (x : String) :
    ∀ (l : List String) (i : Nat), pyIndex l x = some i → i < l.length := by
  intro l
  induction l with
  | nil =>
    intro i h
    unfold pyIndex at h
    exact Option.noConfusion h
  | cons a t ih =>
    intro i h
    unfold pyIndex at h
    by_cases hax : a = x
    · rw [if_pos hax] at h
      cases h
      exact Nat.succ_pos _
    · rw [if_neg hax] at h
      match hh : pyIndex t x with
      | none => rw [hh] at h; simp at h
      | some j =>
        rw [hh] at h
        simp at h
        have := ih j hh
        simp only [List.length_cons]
        omega

/-- Looking a weekday name up by its index returns the table entry at
that index, provided the names are distinct (they are keys of a Python
dict). -/
theorem pyDictGet_intTable (tbl : List (String × Int))
    (hnd : (tbl.map Prod.fst).Nodup) :
    ∀ i, i < tbl.length →
      pyDictGet (intTable tbl) ((tbl.map Prod.fst).getD i "") (.vInt 0) =
        .vInt ((tbl.getD i ("", 0)).2) := by
  induction tbl with
  | nil => intro i h; simp at h
  | cons hd t ih =>
    intro i h
    cases i with
    | zero =>
      show pyDictGet ((hd.1, .vInt hd.2) :: intTable t) hd.1 (.vInt 0) = .vInt hd.2
      unfold pyDictGet
      rw [List.find?_cons_of_pos _ (by simp)]
    | succ j =>
      have hj : j < t.length := by
        simp only [List.length_cons] at h
        omega
      have hmem : (t.map Prod.fst).getD j "" ∈ t.map Prod.fst := by
        rw [List.getD_eq_getElem _ _ (by simpa using hj)]
        exact List.getElem_mem _
      have hhd : hd.1 ∉ t.map Prod.fst := by
        simp only [List.map_cons, List.nodup_cons] at hnd
        exact hnd.1
      have hne : hd.1 ≠ (t.map Prod.fst).getD j "" := by
        intro heq
        exact hhd (heq ▸ hmem)
      have htl := ih (by simpa using (List.nodup_cons.mp (by simpa using hnd)).2) j hj
      show pyDictGet ((hd.1, .vInt hd.2) :: intTable t)
          ((t.map Prod.fst).getD j "") (.vInt 0) = _
      unfold pyDictGet
      rw [List.find?_cons_of_neg _ (by
        simp only [decide_eq_true_eq]
        exact fun heq => hne heq)]
      exact htl

/-- The accumulation loop over an integer table sums the looked-up
entries. -/
theorem cumulativeLoop_intTable (tbl : List (String × Int))
    (hnd : (tbl.map Prod.fst).Nodup) :
    ∀ (idxs : List Nat) (acc : Int), (∀ i ∈ idxs, i < tbl.length) →
      cumulativeLoop (intTable tbl) (tbl.map Prod.fst) acc idxs =
        .ok (acc + (idxs.map fun i => (tbl.getD i ("", 0)).2).sum) := by
  intro idxs
  induction idxs with
  | nil => intro acc h; simp [cumulativeLoop]
  | cons i t ih =>
    intro acc h
    unfold cumulativeLoop
    rw [pyDictGet_intTable tbl hnd i (h i (List.mem_cons_self i t))]
    show cumulativeLoop _ _ (acc + (tbl.getD i ("", 0)).2) t = _
    rw [ih _ fun j hj => h j (List.mem_cons_of_mem i hj)]
    rw [List.map_cons, List.sum_cons, add_assoc]

/-- Summing looked-up entries over `range n` is summing the prefix of
the table. -/
theorem range_map_getD_sum (tbl : List (String × Int)) :
    ∀ n, n ≤ tbl.length →
      ((List.range n).map fun i => (tbl.getD i ("", 0)).2).sum =
        ((tbl.take n).map Prod.snd).sum := by
  intro n
  induction n with
  | zero => intro h; simp
  | succ m ih =>
    intro h
    have hm : m < tbl.length := by omega
    rw [List.range_succ, List.map_append, List.sum_append, ih (by omega),
      List.take_succ, List.map_append, List.sum_append]
    congr 1
    simp only [List.map_cons, List.map_nil, List.sum_cons, List.sum_nil, add_zero]
    rw [show tbl.getD m ("", 0) = tbl[m] from List.getD_eq_getElem _ _ hm,
      List.getElem?_eq_getElem hm]
    simp

/-- Claim C1: with an integer weekday-amount table whose current day
sits at index `pos` of the insertion order, the cumulative limit is the
sum of the amounts at indices 0..pos when the auto-cash time has passed
and a run is recorded for today, and the sum at indices 0..pos-1
otherwise (0 when pos = 0 in that branch, the prefix being empty). -/
theorem claim_C1_cumulative_limit (tbl : List (String × Int)) (day : String)
    (pos : Nat) (tp et : Bool) (hnd : (tbl.map Prod.fst).Nodup)
    (hpos : pyIndex (tbl.map Prod.fst) day = some pos) :
    calculate_cumulative_limit (intTable tbl) day tp et =
      .ok (((tbl.take (if tp && et then pos + 1 else pos)).map Prod.snd).sum) := by
  have hlen : pos < tbl.length := by
    have := pyIndex_lt_length day (tbl.map Prod.fst) pos hpos
    simpa using this
  have hmapfst : (intTable tbl).map Prod.fst = tbl.map Prod.fst := by
    simp [intTable, List.map_map]
  have hne : ((intTable tbl).map Prod.fst).isEmpty = false := by
    rw [hmapfst]
    cases tbl with
    | nil => simp at hlen
    | cons a t => simp
  unfold calculate_cumulative_limit
  rw [hmapfst, hpos]
  rw [hmapfst] at hne
  rw [hne]
  simp only [Bool.false_eq_true, if_false]
  by_cases hb : (tp && et) = true
  · rw [hb]
    simp only [if_true]
    rw [cumulativeLoop_intTable tbl hnd _ 0
      (fun i hi => by
        have := List.mem_range.mp hi
        omega)]
    rw [range_map_getD_sum tbl (pos + 1) (by omega), zero_add]
  · rw [Bool.not_eq_true] at hb
    rw [hb]
    simp only [Bool.false_eq_true, if_false]
    cases hp : pos with
    | zero => simp
    | succ k =>
      rw [if_neg (by omega)]
      rw [cumulativeLoop_intTable tbl hnd _ 0
        (fun i hi => by
          have := List.mem_range.mp hi
          omega)]
      rw [range_map_getD_sum tbl (k + 1) (by omega), zero_add]

/-- Claim C1 witness: the specified instance, amounts Monday 10,
Tuesday 20, Wednesday 30 in insertion order, current day Wednesday:
30 when today is excluded, 60 when the time has passed and today's run
is recorded. -/
theorem claim_C1_cumulative_limit_witness :
    calculate_cumulative_limit
        (intTable [("Monday", 10), ("Tuesday", 20), ("Wednesday", 30)])
        ("Wednesday") false true = .ok 30 ∧
    calculate_cumulative_limit
        (intTable [("Monday", 10), ("Tuesday", 20), ("Wednesday", 30)])
        ("Wednesday") true true = .ok 60 := by
  constructor
  · rw [claim_C1_cumulative_limit _ ("Wednesday") 2 false true (by decide) (by decide)]
    decide
  · rw [claim_C1_cumulative_limit _ ("Wednesday") 2 true true (by decide) (by decide)]
    decide

/-- Appending a fresh key to a record below the ceiling evicts
nothing. -/
theorem recordExecution_append (keys : List String) (key : String)
    (hc : keys.contains key = false) (hlen : keys.length < 1000) :
    recordExecution keys key = keys ++ [key] := by
  unfold recordExecution dictSetKey
  rw [hc]
  rw [if_neg Bool.false_ne_true]
  rw [if_neg (by
    simp only [List.length_append, List.length_cons, List.length_nil]
    omega)]

/-- An already recorded (task, minute) key makes `execute_task` a
no-op. -/
theorem execute_task_already_recorded (keys : List String) (taskName : String)
    (tc : TaskConfig) (now : SchedNow) (cr : Bool) (cc oc : Option String)
    (h : (taskName ++ "_" ++ now.minuteKey) ∈ keys) :
    execute_task keys taskName tc now cr cc oc = .ok (keys, []) := by
  unfold execute_task
  rw [if_pos (List.elem_iff.mpr h)]

/-- Iterating `execute_task` from a state that already holds the key
does nothing. -/
theorem execute_task_iter_already_recorded (taskName : String) (tc : TaskConfig)
    (now : SchedNow) (cr : Bool) (cc oc : Option String) :
    ∀ (n : Nat) (keys : List String), (taskName ++ "_" ++ now.minuteKey) ∈ keys →
      execute_task_iter taskName tc now cr cc oc n keys = .ok (keys, []) := by
  intro n
  induction n with
  | zero => intro keys h; rfl
  | succ m ih =>
    intro keys h
    unfold execute_task_iter
    rw [execute_task_already_recorded keys taskName tc now cr cc oc h]
    dsimp only
    rw [ih keys h]
    simp

/-- Claim C3 amended: within one wall-clock minute, a due lock or
unlock task is dispatched exactly once no matter how often the sweep
runs, and its key is inserted exactly once (the record being below its
ceiling); a sweep at a non-matching minute performs no action and
inserts nothing; but a custom task whose permission update fails does
not record its key, so each further sweep in the same minute re-issues
the permission update. -/
theorem claim_C3_amended (keys : List String) (taskName : String)
    (tc : TaskConfig) (now : SchedNow) (cr : Bool) (cc oc : Option String) :
    ((taskName ++ "_" ++ now.minuteKey) ∈ keys →
      execute_task keys taskName tc now cr cc oc = .ok (keys, [])) ∧
    ((taskName ++ "_" ++ now.minuteKey) ∉ keys → keys.length < 1000 →
      should_execute tc.lockTime now.clock = .ok true → tc.action = "lock" →
      ∀ n, execute_task_iter taskName tc now cr cc oc (n + 1) keys =
        .ok (keys ++ [taskName ++ "_" ++ now.minuteKey],
          [TaskAction.dispatchLockSeq
            (resolveMessage tc.message cc ("Channel has been locked."))])) ∧
    ((taskName ++ "_" ++ now.minuteKey) ∉ keys → keys.length < 1000 →
      should_execute tc.lockTime now.clock = .ok true → tc.action = "unlock" →
      ∀ n, execute_task_iter taskName tc now cr cc oc (n + 1) keys =
        .ok (keys ++ [taskName ++ "_" ++ now.minuteKey],
          [TaskAction.dispatchUnlockSeq
            (resolveMessage tc.message oc ("Channel has been unlocked."))])) ∧
    (should_execute tc.lockTime now.clock = .ok false →
      ∀ n, execute_task_iter taskName tc now cr cc oc n keys = .ok (keys, [])) ∧
    ((taskName ++ "_" ++ now.minuteKey) ∉ keys → tc.action ≠ "lock" →
      tc.action ≠ "unlock" → cr = false →
      should_execute tc.lockTime now.clock = .ok true →
      ∀ n, execute_task_iter taskName tc now cr cc oc n keys =
        .ok (keys, List.replicate n (TaskAction.customPermUpdate false))) := by
  have hkeyeq : ∀ (_ : (taskName ++ "_" ++ now.minuteKey) ∉ keys),
      keys.contains (taskName ++ "_" ++ now.minuteKey) = false := by
    intro h
    rw [← Bool.not_eq_true]
    intro hc
    exact h (List.elem_iff.mp hc)
  refine ⟨execute_task_already_recorded keys taskName tc now cr cc oc, ?_, ?_, ?_, ?_⟩
  · intro hni hlen hdue hact n
    have hstep : execute_task keys taskName tc now cr cc oc =
        .ok (keys ++ [taskName ++ "_" ++ now.minuteKey],
          [TaskAction.dispatchLockSeq
            (resolveMessage tc.message cc ("Channel has been locked."))]) := by
      unfold execute_task
      dsimp only
      rw [hkeyeq hni, if_neg Bool.false_ne_true, hdue]
      dsimp only
      rw [if_pos hact, recordExecution_append _ _ (hkeyeq hni) hlen]
    unfold execute_task_iter
    rw [hstep]
    dsimp only
    rw [execute_task_iter_already_recorded taskName tc now cr cc oc n _
      (List.mem_append_right keys (List.mem_cons_self _ _))]
    simp
  · intro hni hlen hdue hact n
    have hstep : execute_task keys taskName tc now cr cc oc =
        .ok (keys ++ [taskName ++ "_" ++ now.minuteKey],
          [TaskAction.dispatchUnlockSeq
            (resolveMessage tc.message oc ("Channel has been unlocked."))]) := by
      unfold execute_task
      dsimp only
      rw [hkeyeq hni, if_neg Bool.false_ne_true, hdue]
      dsimp only
      rw [if_neg (show ¬(tc.action = "lock") by rw [hact]; decide)]
      rw [if_pos hact, recordExecution_append _ _ (hkeyeq hni) hlen]
    unfold execute_task_iter
    rw [hstep]
    dsimp only
    rw [execute_task_iter_already_recorded taskName tc now cr cc oc n _
      (List.mem_append_right keys (List.mem_cons_self _ _))]
    simp
  · intro hnotdue n
    induction n with
    | zero => rfl
    | succ m ih =>
      have hstep : execute_task keys taskName tc now cr cc oc = .ok (keys, []) := by
        unfold execute_task
        dsimp only
        by_cases hmem : (taskName ++ "_" ++ now.minuteKey) ∈ keys
        · rw [if_pos (List.elem_iff.mpr hmem)]
        · rw [hkeyeq hmem, if_neg Bool.false_ne_true, hnotdue]
      unfold execute_task_iter
      rw [hstep]
      dsimp only
      rw [ih]
      simp
  · intro hni hal hau hcr hdue n
    induction n with
    | zero => rfl
    | succ m ih =>
      have hstep : execute_task keys taskName tc now cr cc oc =
          .ok (keys, [TaskAction.customPermUpdate false]) := by
        unfold execute_task
        dsimp only
        rw [hkeyeq hni, if_neg Bool.false_ne_true, hdue]
        dsimp only
        rw [if_neg hal, if_neg hau, hcr, if_neg Bool.false_ne_true]
      unfold execute_task_iter
      rw [hstep]
      dsimp only
      rw [ih]
      simp [List.replicate_succ]

/-- Claim C3 amended witness: a due lock task, swept three times in the
same minute, dispatches exactly once. -/
theorem claim_C3_amended_witness :
    execute_task_iter ("t") ⟨"14:30", "lock", ""⟩ ⟨⟨2, 14, 30⟩, "2025-01-08_14:30"⟩
        true none none 3 [] =
      .ok (["t_2025-01-08_14:30"],
        [TaskAction.dispatchLockSeq ("Channel has been locked.")]) := by
  have h := (claim_C3_amended [] ("t") ⟨"14:30", "lock", ""⟩
      ⟨⟨2, 14, 30⟩, "2025-01-08_14:30"⟩ true none none).2.1
      (by simp) (by decide) (by decide) rfl 2
  exact h

/-- Claim C3 counterexample: a due custom task whose permission update
fails is not recorded, so two sweeps in the same minute issue the
outbound permission update twice — not exactly one externally visible
action — while a sweep at a non-matching minute issues none. -/
theorem claim_C3_counterexample :
    execute_task_iter ("t") ⟨"14:30", "custom", ""⟩ ⟨⟨2, 14, 30⟩, "2025-01-08_14:30"⟩
        false none none 2 [] =
      .ok ([], [TaskAction.customPermUpdate false, TaskAction.customPermUpdate false]) ∧
    execute_task_iter ("t") ⟨"14:30", "custom", ""⟩ ⟨⟨2, 15, 31⟩, "2025-01-08_15:31"⟩
        false none none 2 [] = .ok ([], []) := by
  constructor
  · decide
  · decide

/-- The code-point order is irreflexive. -/
theorem lexLtChars_irrefl : ∀ l : List Char, lexLtChars l l = false := by
  intro l
  induction l with
  | nil => rfl
  | cons a t ih =>
    unfold lexLtChars
    rw [if_neg (by omega), if_neg (by omega)]
    exact ih

/-- The code-point order is transitive. -/
theorem lexLtChars_trans : ∀ a b c : List Char,
    lexLtChars a b = true → lexLtChars b c = true → lexLtChars a c = true := by
  intro a
  induction a with
  | nil =>
    intro b c hab hbc
    cases c with
    | nil =>
      cases b with
      | nil => simpa using hab
      | cons b1 bs => simp [lexLtChars] at hbc
    | cons c1 cs => rfl
  | cons a1 as ih =>
    intro b c hab hbc
    cases b with
    | nil => simp [lexLtChars] at hab
    | cons b1 bs =>
      cases c with
      | nil => simp [lexLtChars] at hbc
      | cons c1 cs =>
        unfold lexLtChars at hab hbc ⊢
        rcases Nat.lt_trichotomy a1.toNat b1.toNat with h1 | h1 | h1
        · rcases Nat.lt_trichotomy b1.toNat c1.toNat with h2 | h2 | h2
          · rw [if_pos (by omega)]
          · rw [if_pos (by omega)]
          · rw [if_neg (by omega), if_pos h2] at hbc
            exact absurd hbc (by simp)
        · rw [if_neg (by omega), if_neg (by omega)] at hab
          rcases Nat.lt_trichotomy b1.toNat c1.toNat with h2 | h2 | h2
          · rw [if_pos (by omega)]
          · rw [if_neg (by omega), if_neg (by omega)] at hbc ⊢
            exact ih bs cs hab hbc
          · rw [if_neg (by omega), if_pos h2] at hbc
            exact absurd hbc (by simp)
        · rw [if_neg (by omega), if_pos h1] at hab
          exact absurd hab (by simp)

/-- The code-point order is total: a non-smaller pair is equal or
larger. -/
theorem lexLtChars_total : ∀ a b : List Char,
    lexLtChars a b = false → a = b ∨ lexLtChars b a = true := by
  intro a
  induction a with
  | nil =>
    intro b h
    cases b with
    | nil => exact Or.inl rfl
    | cons b1 bs => simp [lexLtChars] at h
  | cons a1 as ih =>
    intro b h
    cases b with
    | nil => exact Or.inr rfl
    | cons b1 bs =>
      unfold lexLtChars at h ⊢
      rcases Nat.lt_trichotomy a1.toNat b1.toNat with h1 | h1 | h1
      · rw [if_pos h1] at h
        exact absurd h (by simp)
      · rw [if_neg (by omega), if_neg (by omega)] at h
        rcases ih bs h with h2 | h2
        · refine Or.inl ?_
          have hc : a1 = b1 := by
            exact_mod_cast Char.ofNat_toNat a1 ▸ Char.ofNat_toNat b1 ▸
              congrArg Char.ofNat h1
          rw [hc, h2]
        · refine Or.inr ?_
          rw [if_neg (by omega), if_neg (by omega)]
          exact h2
      · refine Or.inr ?_
        rw [if_pos h1]

/-- The fold inside `pyMinKey` returns a key that is present and
minimal for the code-point order. -/
theorem foldl_min_spec : ∀ (rest : List String) (acc : String),
    (rest.foldl (fun a k => if pyStrLt k a then k else a) acc ∈ acc :: rest) ∧
    (∀ s ∈ acc :: rest,
      pyStrLt s (rest.foldl (fun a k => if pyStrLt k a then k else a) acc) = false) := by
  intro rest
  induction rest with
  | nil =>
    intro acc
    refine ⟨List.mem_cons_self _ _, ?_⟩
    intro s hs
    rcases List.mem_cons.mp hs with h | h
    · rw [h]
      exact lexLtChars_irrefl _
    · simp at h
  | cons k t ih =>
    intro acc
    constructor
    · by_cases hk : pyStrLt k acc = true
      · simp only [List.foldl_cons, if_pos hk]
        rcases List.mem_cons.mp (ih k).1 with h | h
        · rw [h]
          exact List.mem_cons_of_mem _ (List.mem_cons_self _ _)
        · exact List.mem_cons_of_mem _ (List.mem_cons_of_mem _ h)
      · simp only [List.foldl_cons, if_neg hk]
        rcases List.mem_cons.mp (ih acc).1 with h | h
        · rw [h]
          exact List.mem_cons_self _ _
        · exact List.mem_cons_of_mem _ (List.mem_cons_of_mem _ h)
    · intro s hs
      by_cases hk : pyStrLt k acc = true
      · simp only [List.foldl_cons, if_pos hk]
        rcases List.mem_cons.mp hs with h | hrest
        · subst h
          have hkr := (ih k).2 k (List.mem_cons_self _ _)
          by_contra hcon
          rw [Bool.not_eq_false] at hcon
          have htr : pyStrLt k (t.foldl (fun a k => if pyStrLt k a then k else a) k) =
              true := lexLtChars_trans _ _ _ hk hcon
          rw [hkr] at htr
          exact absurd htr (by simp)
        · refine (ih k).2 s ?_
          rcases List.mem_cons.mp hrest with h | h
          · rw [h]
            exact List.mem_cons_self _ _
          · exact List.mem_cons_of_mem _ h
      · simp only [List.foldl_cons, if_neg hk]
        rcases List.mem_cons.mp hs with h | hrest
        · rw [h]
          exact (ih acc).2 acc (List.mem_cons_self _ _)
        · rcases List.mem_cons.mp hrest with h | h
          · subst h
            have hra := (ih acc).2 acc (List.mem_cons_self _ _)
            rw [Bool.not_eq_true] at hk
            by_contra hcon
            rw [Bool.not_eq_false] at hcon
            rcases lexLtChars_total acc.data
                (t.foldl (fun a k => if pyStrLt k a then k else a) acc).data hra with
              he | hlt
            · have hck : pyStrLt s acc = true := by
                unfold pyStrLt at hcon ⊢
                rw [he]
                exact hcon
              rw [hck] at hk
              exact absurd hk (by simp)
            · have hck : pyStrLt s acc = true := lexLtChars_trans _ _ _ hcon hlt
              rw [hck] at hk
              exact absurd hk (by simp)
          · exact (ih acc).2 s (List.mem_cons_of_mem _ h)

/-- Claim C8 amended: the execution record stays bounded — once at or
below 1000 entries it never exceeds 1000 after an insertion-and-cleanup
— and when the cleanup evicts, the evicted entry is the minimum of the
composite `taskname_timestamp` keys in code-point order (the task name
weighs first), which need not be the entry with the earliest target
minute. -/
theorem claim_C8_amended :
    (∀ (keys : List String) (key : String), keys.length ≤ 1000 →
      (recordExecution keys key).length ≤ 1000) ∧
    (∀ keys : List String, keys ≠ [] →
      pyMinKey keys ∈ keys ∧ ∀ k ∈ keys, pyStrLt k (pyMinKey keys) = false) := by
  have hmin : ∀ keys : List String, keys ≠ [] →
      pyMinKey keys ∈ keys ∧ ∀ k ∈ keys, pyStrLt k (pyMinKey keys) = false := by
    intro keys hne
    cases keys with
    | nil => exact absurd rfl hne
    | cons a rest => exact foldl_min_spec rest a
  refine ⟨?_, hmin⟩
  intro keys key hlen
  unfold recordExecution
  by_cases hgt : 1000 < (dictSetKey keys key).length
  · rw [if_pos hgt]
    have hne : dictSetKey keys key ≠ [] := by
      intro h
      rw [h] at hgt
      simp at hgt
    have hmem := (hmin _ hne).1
    rw [List.length_erase_of_mem hmem]
    unfold dictSetKey at hgt ⊢
    by_cases hc : keys.contains key = true
    · rw [if_pos hc] at hgt ⊢
      omega
    · rw [if_neg hc] at hgt ⊢
      simp only [List.length_append, List.length_cons, List.length_nil]
      simp only [List.length_append, List.length_cons, List.length_nil] at hgt
      omega
  · rw [if_neg hgt]
    omega

/-- Claim C8 amended witness: the bound and the minimality at concrete
records. -/
theorem claim_C8_amended_witness :
    (recordExecution ["a"] ("b")).length ≤ 1000 ∧
    pyMinKey ["b", "a"] ∈ ["b", "a"] ∧
    ∀ k ∈ ["b", "a"], pyStrLt k (pyMinKey ["b", "a"]) = false := by
  refine ⟨claim_C8_amended.1 ["a"] ("b") (by decide), ?_, ?_⟩
  · exact (claim_C8_amended.2 ["b", "a"] (by decide)).1
  · exact (claim_C8_amended.2 ["b", "a"] (by decide)).2

/-- A fold over keys that are all at least the accumulator returns the
accumulator. -/
theorem foldl_min_const : ∀ (l : List String) (acc : String),
    (∀ k ∈ l, pyStrLt k acc = false) →
    l.foldl (fun a k => if pyStrLt k a then k else a) acc = acc := by
  intro l
  induction l with
  | nil => intro acc _; rfl
  | cons k t ih =>
    intro acc h
    have hk : pyStrLt k acc = false := h k (List.mem_cons_self _ _)
    simp only [List.foldl_cons]
    rw [if_neg (by rw [hk]; simp)]
    exact ih acc fun j hj => h j (List.mem_cons_of_mem _ hj)

/-- A head character with the larger code point decides the order. -/
theorem lexLt_head_ge (a b : Char) (l t : List Char) (h : b.toNat < a.toNat) :
    lexLtChars (a :: l) (b :: t) = false := by
  unfold lexLtChars
  rw [if_neg (by omega), if_pos h]

/-- No filler key compares below the task-`b` key: the task name weighs
first. -/
theorem c8Key_not_lt_b : ∀ i, pyStrLt (c8Key i) ("b_2020-01-01_00:00") = false := by
  intro i
  exact lexLt_head_ge 'c' 'b' _ _ (by decide)

/-- The new key is not yet recorded. -/
theorem c8_newKey_not_mem : c8NewKey ∉ c8Keys := by
  intro h
  rcases List.mem_cons.mp h with h | h
  · exact absurd h (by decide)
  · rcases List.mem_map.mp h with ⟨i, _, hi⟩
    have hd : (some 'c' : Option Char) = c8NewKey.data.head? :=
      congrArg (fun s : String => s.data.head?) hi
    exact absurd hd (by decide)

/-- Claim C8 counterexample: with the record at its 1000-entry ceiling,
recording the newest key (task `a`, target minute 2025-12-31 23:59)
evicts that very key, because the cleanup deletes the minimum of the
composite `taskname_timestamp` strings and the task name weighs first.
The entry with the earliest target minute, `b_2020-01-01_00:00`, stays
— the oldest entry is not the one evicted. -/
theorem claim_C8_counterexample :
    recordExecution c8Keys c8NewKey = c8Keys ∧
    ("b_2020-01-01_00:00") ∈ c8Keys ∧
    c8NewKey ∉ c8Keys ∧
    c8Keys.length = 1000 := by
  have hlen : c8Keys.length = 1000 := by
    simp [c8Keys]
  have hnc : c8Keys.contains c8NewKey = false := by
    rw [← Bool.not_eq_true]
    intro hc
    exact c8_newKey_not_mem (List.elem_iff.mp hc)
  have hset : dictSetKey c8Keys c8NewKey = c8Keys ++ [c8NewKey] := by
    unfold dictSetKey
    rw [hnc, if_neg Bool.false_ne_true]
  have hmin : pyMinKey (c8Keys ++ [c8NewKey]) = c8NewKey := by
    show ((List.range 999).map c8Key ++ [c8NewKey]).foldl
        (fun acc k => if pyStrLt k acc then k else acc) ("b_2020-01-01_00:00") =
      c8NewKey
    rw [List.foldl_append]
    rw [foldl_min_const ((List.range 999).map c8Key) ("b_2020-01-01_00:00") (by
      intro k hk
      rcases List.mem_map.mp hk with ⟨i, _, hi⟩
      rw [← hi]
      exact c8Key_not_lt_b i)]
    simp only [List.foldl_cons, List.foldl_nil]
    rw [if_pos (by decide)]
  refine ⟨?_, List.mem_cons_self _ _, c8_newKey_not_mem, hlen⟩
  unfold recordExecution
  dsimp only
  rw [hset, hmin]
  rw [if_pos (by
    simp only [List.length_append, List.length_cons, List.length_nil, hlen]
    omega)]
  rw [List.erase_append_right _ c8_newKey_not_mem]
  rw [List.erase_cons_head, List.append_nil]

/-- `exactDigits` returns exactly the requested number of characters. -/
theorem exactDigits_length : ∀ (k : Nat) (l ds r : List Char),
    exactDigits k l = some (ds, r) → ds.length = k := by
  intro k
  induction k with
  | zero =>
    intro l ds r h
    unfold exactDigits at h
    simp only [Option.some.injEq, Prod.mk.injEq] at h
    rw [← h.1]
    rfl
  | succ m ih =>
    intro l ds r h
    unfold exactDigits at h
    cases l with
    | nil => exact Option.noConfusion h
    | cons c t =>
      dsimp only at h
      by_cases hc : c.isDigit = true
      · rw [if_pos hc] at h
        cases hh : exactDigits m t with
        | none => rw [hh] at h; exact Option.noConfusion h
        | some p =>
          rw [hh] at h
          simp only [Option.some.injEq, Prod.mk.injEq] at h
          rw [← h.1, List.length_cons, ih t p.1 p.2 (by rw [hh])]
      · rw [if_neg hc] at h
        exact Option.noConfusion h

/-- The comma-group tail is empty or starts with a comma. -/
theorem commaGroups_first : ∀ l : List Char,
    (commaGroups l).1 = [] ∨ (commaGroups l).1.head? = some ',' := by
  intro l
  unfold commaGroups
  split
  · split
    · right
      rfl
    · left
      rfl
  · left
    rfl

/-- Shape of a first-alternative match: `k` digits then the comma
groups, the groups being nonempty when they are required. -/
theorem numAlt1K_shape (rc : Bool) (k : Nat) (l tok r : List Char)
    (h : numAlt1K rc k l = some (tok, r)) :
    ∃ ds g, tok = ds ++ g ∧ ds.length = k ∧
      (g = [] ∨ g.head? = some ',') ∧ (rc = true → g ≠ []) := by
  unfold numAlt1K at h
  cases hd : exactDigits k l with
  | none => rw [hd] at h; exact Option.noConfusion h
  | some p =>
    rw [hd] at h
    dsimp only at h
    by_cases hg : (rc && ((commaGroups p.2).1).isEmpty) = true
    · rw [if_pos hg] at h
      exact Option.noConfusion h
    · rw [if_neg hg] at h
      simp only [Option.some.injEq, Prod.mk.injEq] at h
      refine ⟨p.1, (commaGroups p.2).1, h.1.symm,
        exactDigits_length k l p.1 p.2 (by rw [hd]), commaGroups_first p.2, ?_⟩
      intro hrc hgem
      apply hg
      rw [hrc, hgem]
      rfl

/-- Shape of a second-alternative match: a digit run of the minimum
length. -/
theorem numAlt2_shape (mp : Nat) (l tok r : List Char)
    (h : numAlt2 mp l = some (tok, r)) :
    tok = l.takeWhile (·.isDigit) ∧ mp ≤ tok.length := by
  unfold numAlt2 at h
  by_cases hm : mp ≤ (l.takeWhile (·.isDigit)).length
  · rw [if_pos hm] at h
    simp only [Option.some.injEq, Prod.mk.injEq] at h
    exact ⟨h.1.symm, h.1 ▸ hm⟩
  · rw [if_neg hm] at h
    exact Option.noConfusion h

/-- A failed single-digit first alternative means the input does not
start with a digit (when the comma groups are optional the alternative
never fails for another reason). -/
theorem numAlt1K_none_false (l : List Char)
    (h : numAlt1K false 1 l = none) : exactDigits 1 l = none := by
  unfold numAlt1K at h
  cases hd : exactDigits 1 l with
  | none => rfl
  | some p =>
    rw [hd] at h
    simp at h

/-- Case analysis on the alternation. -/
theorem numTokenAt_cases (rc : Bool) (mp : Nat) (l tok r : List Char)
    (h : numTokenAt rc mp l = some (tok, r)) :
    (∃ k, (k = 3 ∨ k = 2 ∨ k = 1) ∧ numAlt1K rc k l = some (tok, r)) ∨
    (numAlt1K rc 1 l = none ∧ numAlt2 mp l = some (tok, r)) := by
  unfold numTokenAt at h
  cases h3 : numAlt1K rc 3 l with
  | some p =>
    rw [h3] at h
    have h2 : some p = some (tok, r) := h
    exact Or.inl ⟨3, Or.inl rfl, by rw [h3, h2]⟩
  | none =>
    rw [h3] at h
    have h2 : (numAlt1K rc 2 l <|> numAlt1K rc 1 l <|> numAlt2 mp l) =
        some (tok, r) := h
    cases hb : numAlt1K rc 2 l with
    | some p =>
      rw [hb] at h2
      have h4 : some p = some (tok, r) := h2
      exact Or.inl ⟨2, Or.inr (Or.inl rfl), by rw [hb, h4]⟩
    | none =>
      rw [hb] at h2
      have h5 : (numAlt1K rc 1 l <|> numAlt2 mp l) = some (tok, r) := h2
      cases hc : numAlt1K rc 1 l with
      | some p =>
        rw [hc] at h5
        have h6 : some p = some (tok, r) := h5
        exact Or.inl ⟨1, Or.inr (Or.inr rfl), by rw [hc, h6]⟩
      | none =>
        rw [hc] at h5
        have h7 : numAlt2 mp l = some (tok, r) := h5
        exact Or.inr ⟨rfl, h7⟩

/-- A token produced by the line pattern with at least four digits must
carry a thousands separator: a plain digit run is matched in chunks of
at most three digits. -/
theorem numTokenAt_line_comma (l tok r : List Char)
    (h : numTokenAt false 4 l = some (tok, r)) (hlen : 4 ≤ tok.length) :
    ',' ∈ tok := by
  rcases numTokenAt_cases false 4 l tok r h with ⟨k, hk, ha⟩ | ⟨hn, ha⟩
  · rcases numAlt1K_shape false k l tok r ha with ⟨ds, g, htok, hds, hg, -⟩
    have hk3 : k ≤ 3 := by rcases hk with h | h | h <;> omega
    rcases hg with hge | hghead
    · rw [htok, hge, List.append_nil] at hlen
      omega
    · rw [htok]
      refine List.mem_append_right ds ?_
      cases g with
      | nil => simp at hghead
      | cons c t =>
        simp only [List.head?_cons, Option.some.injEq] at hghead
        rw [hghead]
        exact List.mem_cons_self _ _
  · rcases numAlt2_shape 4 l tok r ha with ⟨htok, hmin⟩
    have hd1 := numAlt1K_none_false l hn
    cases l with
    | nil =>
      rw [htok] at hmin
      simp at hmin
    | cons c t =>
      by_cases hc : c.isDigit = true
      · unfold exactDigits at hd1
        rw [if_pos hc] at hd1
        unfold exactDigits at hd1
        exact Option.noConfusion hd1
      · rw [htok] at hmin
        simp only [List.takeWhile_cons] at hmin
        rw [if_neg hc] at hmin
        simp at hmin

/-- A token produced by the fallback pattern carries a separator or is
a digit run of at least six digits. -/
theorem numTokenAt_fallback (l tok r : List Char)
    (h : numTokenAt true 6 l = some (tok, r)) :
    ',' ∈ tok ∨ 6 ≤ tok.length := by
  rcases numTokenAt_cases true 6 l tok r h with ⟨k, hk, ha⟩ | ⟨-, ha⟩
  · rcases numAlt1K_shape true k l tok r ha with ⟨ds, g, htok, -, hg, hne⟩
    have hgne := hne rfl
    rcases hg with hge | hghead
    · exact absurd hge hgne
    · refine Or.inl ?_
      rw [htok]
      refine List.mem_append_right ds ?_
      cases g with
      | nil => simp at hghead
      | cons c t =>
        simp only [List.head?_cons, Option.some.injEq] at hghead
        rw [hghead]
        exact List.mem_cons_self _ _
  · rcases numAlt2_shape 6 l tok r ha with ⟨-, hmin⟩
    exact Or.inr hmin

/-- Every token emitted by the scan is produced by the alternation at
some position. -/
theorem findallNumsAux_mem (rc : Bool) (mp : Nat) : ∀ (fuel : Nat) (l tok : List Char),
    tok ∈ findallNumsAux rc mp fuel l →
    ∃ l2 r, numTokenAt rc mp l2 = some (tok, r) := by
  intro fuel
  induction fuel with
  | zero =>
    intro l tok h
    simp [findallNumsAux] at h
  | succ m ih =>
    intro l tok h
    cases l with
    | nil => simp [findallNumsAux] at h
    | cons c t =>
      unfold findallNumsAux at h
      cases hT : numTokenAt rc mp (c :: t) with
      | some p =>
        rw [hT] at h
        rcases List.mem_cons.mp h with heq | hrest
        · exact ⟨c :: t, p.2, by rw [hT, heq]⟩
        · exact ih p.2 tok hrest
      | none =>
        rw [hT] at h
        exact ih t tok h

/-- Claim C6 counterexample: a rank-1 line whose amount is a plain
digit run of five digits yields no parse at all — the line pattern
chops it into chunks of at most three digits, and the fallback needs a
separator or six digits — where the claim promises 12345. -/
theorem claim_C6_counterexample :
    parse_lb_cash_response [⟨"**1.** PlayerX — 12345 cash"⟩] = none := by
  decide

/-- Claim C6 amended: the parser returns the specified instance value;
it fails on a body with no qualifying number; on a rank-1 line, every
extracted token kept by the 4-digit filter carries a thousands
separator (plain runs are chopped to at most three digits by the
leftmost-first alternation); and the whole-body fallback only yields
comma-grouped tokens or digit runs of at least six digits. -/
theorem claim_C6_amended :
    parse_lb_cash_response
        [⟨"**1.** PlayerX — 1,234,567 cash\n**2.** PlayerY — 500 cash"⟩] =
      some 1234567 ∧
    parse_lb_cash_response [⟨"nothing here"⟩] = none ∧
    (∀ l tok : List Char, tok ∈ findallNums false 4 l → 4 ≤ tok.length →
      ',' ∈ tok) ∧
    (∀ l tok : List Char, tok ∈ findallNums true 6 l →
      ',' ∈ tok ∨ 6 ≤ tok.length) := by
  refine ⟨by decide, by decide, ?_, ?_⟩
  · intro l tok hmem hlen
    rcases findallNumsAux_mem false 4 l.length l tok hmem with ⟨l2, r, h⟩
    exact numTokenAt_line_comma l2 tok r h hlen
  · intro l tok hmem
    rcases findallNumsAux_mem true 6 l.length l tok hmem with ⟨l2, r, h⟩
    exact numTokenAt_fallback l2 tok r h

/-- Claim C6 amended witness: the separator property on a concrete
scanned token. -/
theorem claim_C6_amended_witness :
    ',' ∈ ['1', ',', '2', '3', '4'] := by
  refine claim_C6_amended.2.2.1 ("1,234").data ['1', ',', '2', '3', '4'] ?_ ?_
  · decide
  · decide

/-- The first component of `_handle_rate_limit` is the 429 test. -/
theorem handle_rate_limit_fst (r : HttpResp) (now : ℚ) :
    (handle_rate_limit r now).1 = decide (r.code = 429) := by
  unfold handle_rate_limit
  by_cases h : r.code = 429
  · rw [if_pos h]
    simp [h]
  · rw [if_neg h]
    cases hh : r.rlHeader with
    | none => simp [h]
    | some p =>
      obtain ⟨rem, rst⟩ := p
      dsimp only
      by_cases hz : rem = 0
      · rw [if_pos hz]
        simp [h]
      · rw [if_neg hz]
        simp [h]

/-- On a 429 the handler sleeps exactly the server wait. -/
theorem handle_rate_limit_snd_429 (r : HttpResp) (now : ℚ) (h : r.code = 429) :
    (handle_rate_limit r now).2 = now + r.retryAfter := by
  unfold handle_rate_limit
  rw [if_pos h]

/-- Away from 429 the handler never travels back in time. -/
theorem handle_rate_limit_snd_ge (r : HttpResp) (now : ℚ) (h : ¬ r.code = 429) :
    now ≤ (handle_rate_limit r now).2 := by
  unfold handle_rate_limit
  rw [if_neg h]
  cases hh : r.rlHeader with
  | none => exact le_refl now
  | some p =>
    obtain ⟨rem, rst⟩ := p
    dsimp only
    by_cases hz : rem = 0
    · rw [if_pos hz]
      dsimp only
      have h1 : (0:ℚ) ≤ max 0 (rst - now) := le_max_left 0 _
      linarith
    · rw [if_neg hz]

/-- With no exhausted-quota header, the non-429 handler does not sleep
at all. -/
theorem handle_rate_limit_snd_quiet (r : HttpResp) (now : ℚ) (h : ¬ r.code = 429)
    (hq : ∀ rem rst, r.rlHeader = some (rem, rst) → rem ≠ 0) :
    (handle_rate_limit r now).2 = now := by
  unfold handle_rate_limit
  rw [if_neg h]
  cases hh : r.rlHeader with
  | none => rfl
  | some p =>
    obtain ⟨rem, rst⟩ := p
    dsimp only
    rw [if_neg (hq rem rst hh)]

/-- The loop makes at most as many attempts as iterations remain. -/
theorem send_loop_length (env : SendEnv) : ∀ (rem attempt : Nat) (now : ℚ),
    ((send_message_loop env rem attempt now).2).length ≤ rem := by
  intro rem
  induction rem with
  | zero => intro a now; simp [send_message_loop]
  | succ m ih =>
    intro a now
    unfold send_message_loop
    cases ho : env.outcome a with
    | timeout =>
      dsimp only
      split_ifs
      · simp only [List.length_cons]
        exact Nat.succ_le_succ (ih (a + 1) _)
      · simp
    | reqError => simp
    | resp r =>
      dsimp only
      split_ifs
      · simp only [List.length_cons]
        exact Nat.succ_le_succ (ih (a + 1) _)
      · simp
      · simp
      · simp only [List.length_cons]
        exact Nat.succ_le_succ (ih (a + 1) _)
      · simp

/-- A live loop always issues its next attempt one pre-send jitter
after the current instant. -/
theorem send_loop_head (env : SendEnv) : ∀ (rem a : Nat) (now : ℚ), 0 < rem →
    ∃ rest, (send_message_loop env rem a now).2 = (now + env.preJitter a) :: rest := by
  intro rem a now h
  cases rem with
  | zero => omega
  | succ m =>
    unfold send_message_loop
    cases ho : env.outcome a with
    | timeout =>
      dsimp only
      split_ifs
      · exact ⟨_, rfl⟩
      · exact ⟨_, rfl⟩
    | reqError => exact ⟨_, rfl⟩
    | resp r =>
      dsimp only
      split_ifs
      · exact ⟨_, rfl⟩
      · exact ⟨_, rfl⟩
      · exact ⟨_, rfl⟩
      · exact ⟨_, rfl⟩
      · exact ⟨_, rfl⟩

/-- Between consecutive issued attempts, the elapsed time is exactly
the retry delay of the earlier attempt plus the next pre-send jitter,
provided no header-driven sleep interferes. -/
theorem send_loop_gap (env : SendEnv) :
    ∀ (rem a : Nat) (now : ℚ) (i : Nat) (ti ti1 : ℚ),
    ((send_message_loop env rem a now).2).get? i = some ti →
    ((send_message_loop env rem a now).2).get? (i + 1) = some ti1 →
    headerQuiet (env.outcome (a + i)) →
    ti1 - ti = stepAdvance env (a + i) + env.preJitter (a + i + 1) := by
  intro rem
  induction rem with
  | zero =>
    intro a now i ti ti1 h1 h2 hq
    simp [send_message_loop] at h1
  | succ m ih =>
    intro a now i ti ti1 h1 h2 hq
    unfold send_message_loop at h1 h2
    cases ho : env.outcome a with
    | reqError =>
      rw [ho] at h1 h2
      dsimp only at h1 h2
      cases i <;> simp at h2
    | timeout =>
      rw [ho] at h1 h2
      dsimp only at h1 h2
      by_cases hlt : a < 2
      · rw [if_pos hlt] at h1 h2
        cases i with
        | zero =>
          simp only [List.get?_cons_zero, Option.some.injEq] at h1
          rw [List.get?_cons_succ] at h2
          cases m with
          | zero => simp [send_message_loop] at h2
          | succ m2 =>
            obtain ⟨rest, hr⟩ :=
              send_loop_head env (m2 + 1) (a + 1)
                (now + env.preJitter a + 2 ^ a) (Nat.succ_pos m2)
            rw [hr, List.get?_cons_zero, Option.some.injEq] at h2
            rw [← h1, ← h2]
            simp only [Nat.add_zero, stepAdvance, ho]
            ring
        | succ j =>
          rw [List.get?_cons_succ] at h1 h2
          have e : a + 1 + j = a + (j + 1) := by omega
          have hq2 : headerQuiet (env.outcome (a + 1 + j)) := by rw [e]; exact hq
          have := ih (a + 1) (now + env.preJitter a + 2 ^ a) j ti ti1 h1 h2 hq2
          rw [e] at this
          exact this
      · rw [if_neg hlt] at h1 h2
        cases i <;> simp at h2
    | resp r =>
      rw [ho] at h1 h2
      dsimp only at h1 h2
      by_cases h429 : r.code = 429
      · have hfst : (handle_rate_limit r (now + env.preJitter a)).1 = true := by
          rw [handle_rate_limit_fst]
          simp [h429]
        rw [hfst, if_pos rfl] at h1 h2
        cases i with
        | zero =>
          simp only [List.get?_cons_zero, Option.some.injEq] at h1
          rw [List.get?_cons_succ] at h2
          cases m with
          | zero => simp [send_message_loop] at h2
          | succ m2 =>
            obtain ⟨rest, hr⟩ :=
              send_loop_head env (m2 + 1) (a + 1)
                ((handle_rate_limit r (now + env.preJitter a)).2) (Nat.succ_pos m2)
            rw [hr, List.get?_cons_zero, Option.some.injEq] at h2
            rw [← h1, ← h2,
              handle_rate_limit_snd_429 r (now + env.preJitter a) h429]
            simp only [Nat.add_zero, stepAdvance, ho, if_pos h429]
            ring
        | succ j =>
          rw [List.get?_cons_succ] at h1 h2
          have e : a + 1 + j = a + (j + 1) := by omega
          have hq2 : headerQuiet (env.outcome (a + 1 + j)) := by rw [e]; exact hq
          have := ih (a + 1) ((handle_rate_limit r (now + env.preJitter a)).2) j
            ti ti1 h1 h2 hq2
          rw [e] at this
          exact this
      · have hfst : (handle_rate_limit r (now + env.preJitter a)).1 = false := by
          rw [handle_rate_limit_fst]
          simp [h429]
        rw [hfst, if_neg Bool.false_ne_true] at h1 h2
        by_cases h200 : r.code = 200
        · rw [if_pos h200] at h1 h2
          cases i <;> simp at h2
        · rw [if_neg h200] at h1 h2
          by_cases hperm : (decide (r.code = 401) || decide (r.code = 403) ||
              decide (r.code = 404)) = true
          · rw [if_pos hperm] at h1 h2
            cases i <;> simp at h2
          · rw [if_neg hperm] at h1 h2
            by_cases hlt : a < 2
            · rw [if_pos hlt] at h1 h2
              cases i with
              | zero =>
                simp only [List.get?_cons_zero, Option.some.injEq] at h1
                rw [List.get?_cons_succ] at h2
                cases m with
                | zero => simp [send_message_loop] at h2
                | succ m2 =>
                  obtain ⟨rest, hr⟩ :=
                    send_loop_head env (m2 + 1) (a + 1)
                      ((handle_rate_limit r (now + env.preJitter a)).2 + 2 ^ a +
                        env.backoffJitter a) (Nat.succ_pos m2)
                  rw [hr, List.get?_cons_zero, Option.some.injEq] at h2
                  have hqa : headerQuiet (env.outcome a) := by
                    have := hq
                    rw [Nat.add_zero] at this
                    exact this
                  rw [ho] at hqa
                  have hsnd : (handle_rate_limit r (now + env.preJitter a)).2 =
                      now + env.preJitter a :=
                    handle_rate_limit_snd_quiet r _ h429 (hqa h429)
                  rw [← h1, ← h2, hsnd]
                  simp only [Nat.add_zero, stepAdvance, ho, if_neg h429]
                  ring
              | succ j =>
                rw [List.get?_cons_succ] at h1 h2
                have e : a + 1 + j = a + (j + 1) := by omega
                have hq2 : headerQuiet (env.outcome (a + 1 + j)) := by rw [e]; exact hq
                have := ih (a + 1)
                  ((handle_rate_limit r (now + env.preJitter a)).2 + 2 ^ a +
                    env.backoffJitter a) j ti ti1 h1 h2 hq2
                rw [e] at this
                exact this
            · rw [if_neg hlt] at h1 h2
              cases i <;> simp at h2

/-- A 401/403/404 response stops the loop at that attempt with a
failure. -/
theorem send_loop_perm (env : SendEnv) :
    ∀ (rem a : Nat) (now : ℚ) (i : Nat) (ti : ℚ) (rr : HttpResp),
    ((send_message_loop env rem a now).2).get? i = some ti →
    env.outcome (a + i) = .resp rr →
    (rr.code = 401 ∨ rr.code = 403 ∨ rr.code = 404) →
    (send_message_loop env rem a now).1 = .failed ∧
    ((send_message_loop env rem a now).2).length = i + 1 := by
  intro rem
  induction rem with
  | zero =>
    intro a now i ti rr h1 ho hp
    simp [send_message_loop] at h1
  | succ m ih =>
    intro a now i ti rr h1 ho hp
    cases i with
    | zero =>
      rw [Nat.add_zero] at ho
      have hne429 : ¬ rr.code = 429 := by rcases hp with h | h | h <;> omega
      have hne200 : ¬ rr.code = 200 := by rcases hp with h | h | h <;> omega
      have hfst : (handle_rate_limit rr (now + env.preJitter a)).1 = false := by
        rw [handle_rate_limit_fst]
        simp [hne429]
      have hbp : (decide (rr.code = 401) || decide (rr.code = 403) ||
          decide (rr.code = 404)) = true := by
        rcases hp with h | h | h <;> simp [h]
      constructor
      · show (send_message_loop env (m + 1) a now).1 = SendOutcome.failed
        unfold send_message_loop
        rw [ho]
        dsimp only
        rw [hfst, if_neg Bool.false_ne_true, if_neg hne200, if_pos hbp]
      · show ((send_message_loop env (m + 1) a now).2).length = 1
        unfold send_message_loop
        rw [ho]
        dsimp only
        rw [hfst, if_neg Bool.false_ne_true, if_neg hne200, if_pos hbp]
        rfl
    | succ j =>
      have hoj : env.outcome (a + 1 + j) = .resp rr := by
        have e : a + 1 + j = a + (j + 1) := by omega
        rw [e]
        exact ho
      unfold send_message_loop at h1 ⊢
      cases hoa : env.outcome a with
      | reqError =>
        rw [hoa] at h1
        dsimp only at h1
        simp at h1
      | timeout =>
        rw [hoa] at h1
        dsimp only at h1 ⊢
        by_cases hlt : a < 2
        · rw [if_pos hlt] at h1 ⊢
          rw [List.get?_cons_succ] at h1
          have hin := ih (a + 1) (now + env.preJitter a + 2 ^ a) j ti rr h1 hoj hp
          refine ⟨hin.1, ?_⟩
          simp only [List.length_cons, hin.2]
        · rw [if_neg hlt] at h1
          simp at h1
      | resp r =>
        rw [hoa] at h1
        dsimp only at h1 ⊢
        by_cases h429 : r.code = 429
        · have hfst : (handle_rate_limit r (now + env.preJitter a)).1 = true := by
            rw [handle_rate_limit_fst]
            simp [h429]
          rw [hfst, if_pos rfl] at h1 ⊢
          rw [List.get?_cons_succ] at h1
          have hin := ih (a + 1) _ j ti rr h1 hoj hp
          refine ⟨hin.1, ?_⟩
          simp only [List.length_cons, hin.2]
        · have hfst : (handle_rate_limit r (now + env.preJitter a)).1 = false := by
            rw [handle_rate_limit_fst]
            simp [h429]
          rw [hfst, if_neg Bool.false_ne_true] at h1 ⊢
          by_cases h200 : r.code = 200
          · rw [if_pos h200] at h1
            simp at h1
          · rw [if_neg h200] at h1 ⊢
            by_cases hpb : (decide (r.code = 401) || decide (r.code = 403) ||
                decide (r.code = 404)) = true
            · rw [if_pos hpb] at h1
              simp at h1
            · rw [if_neg hpb] at h1 ⊢
              by_cases hlt : a < 2
              · rw [if_pos hlt] at h1 ⊢
                rw [List.get?_cons_succ] at h1
                have hin := ih (a + 1) _ j ti rr h1 hoj hp
                refine ⟨hin.1, ?_⟩
                simp only [List.length_cons, hin.2]
              · rw [if_neg hlt] at h1
                simp at h1

/-- A transient attempt below the retry limit recurses. -/
theorem send_loop_step_transient (env : SendEnv) (m a : Nat) (now : ℚ)
    (h : transientOutcome (env.outcome a)) (hlt : a < 2) :
    ∃ now2, send_message_loop env (m + 1) a now =
      ((send_message_loop env m (a + 1) now2).1,
        (now + env.preJitter a) :: (send_message_loop env m (a + 1) now2).2) := by
  rcases h with ho | ⟨rr, ho, hn2xx, h401, h403, h404, h429⟩
  · refine ⟨now + env.preJitter a + 2 ^ a, ?_⟩
    conv_lhs => unfold send_message_loop
    rw [ho]
    dsimp only
    rw [if_pos hlt]
  · refine ⟨(handle_rate_limit rr (now + env.preJitter a)).2 + 2 ^ a +
      env.backoffJitter a, ?_⟩
    have hne200 : ¬ rr.code = 200 := by
      intro h
      exact hn2xx ⟨by omega, by omega⟩
    have hfst : (handle_rate_limit rr (now + env.preJitter a)).1 = false := by
      rw [handle_rate_limit_fst]
      simp [h429]
    have hpb : ¬ (decide (rr.code = 401) || decide (rr.code = 403) ||
        decide (rr.code = 404)) = true := by
      simp [h401, h403, h404]
    conv_lhs => unfold send_message_loop
    rw [ho]
    dsimp only
    rw [hfst, if_neg Bool.false_ne_true, if_neg hne200, if_neg hpb, if_pos hlt]

/-- A transient attempt at the last iteration fails the call. -/
theorem send_loop_last_transient (env : SendEnv) (a : Nat) (now : ℚ)
    (h : transientOutcome (env.outcome a)) (hlt : ¬ a < 2) :
    send_message_loop env 1 a now = (.failed, [now + env.preJitter a]) := by
  rcases h with ho | ⟨rr, ho, hn2xx, h401, h403, h404, h429⟩
  · conv_lhs => unfold send_message_loop
    rw [ho]
    dsimp only
    rw [if_neg hlt]
  · have hne200 : ¬ rr.code = 200 := by
      intro h
      exact hn2xx ⟨by omega, by omega⟩
    have hfst : (handle_rate_limit rr (now + env.preJitter a)).1 = false := by
      rw [handle_rate_limit_fst]
      simp [h429]
    have hpb : ¬ (decide (rr.code = 401) || decide (rr.code = 403) ||
        decide (rr.code = 404)) = true := by
      simp [h401, h403, h404]
    conv_lhs => unfold send_message_loop
    rw [ho]
    dsimp only
    rw [hfst, if_neg Bool.false_ne_true, if_neg hne200, if_neg hpb, if_neg hlt]

/-- A 429 always recurses, whatever the attempt number. -/
theorem send_loop_step_429 (env : SendEnv) (m a : Nat) (now : ℚ) (rr : HttpResp)
    (ho : env.outcome a = .resp rr) (h429 : rr.code = 429) :
    send_message_loop env (m + 1) a now =
      ((send_message_loop env m (a + 1)
          (handle_rate_limit rr (now + env.preJitter a)).2).1,
        (now + env.preJitter a) ::
          (send_message_loop env m (a + 1)
            (handle_rate_limit rr (now + env.preJitter a)).2).2) := by
  have hfst : (handle_rate_limit rr (now + env.preJitter a)).1 = true := by
    rw [handle_rate_limit_fst]
    simp [h429]
  conv_lhs => unfold send_message_loop
  rw [ho]
  dsimp only
  rw [hfst, if_pos rfl]

/-- Three transient or timed-out attempts exhaust the budget and fail
the call. -/
theorem send_message_all_transient (env : SendEnv)
    (h : ∀ k, k < 3 → transientOutcome (env.outcome k)) :
    (send_message env).1 = .failed ∧ ((send_message env).2).length = 3 := by
  obtain ⟨n1, e0⟩ := send_loop_step_transient env 2 0 0 (h 0 (by omega)) (by omega)
  obtain ⟨n2, e1⟩ := send_loop_step_transient env 1 1 n1 (h 1 (by omega)) (by omega)
  have e2 := send_loop_last_transient env 2 n2 (h 2 (by omega)) (by omega)
  show (send_message_loop env 3 0 0).1 = .failed ∧
    ((send_message_loop env 3 0 0).2).length = 3
  rw [e0, e1, e2]
  exact ⟨rfl, rfl⟩

/-- Three 429 responses also exhaust the three-iteration budget. -/
theorem send_message_all_429 (env : SendEnv)
    (h : ∀ k, k < 3 → ∃ rr, env.outcome k = .resp rr ∧ rr.code = 429) :
    (send_message env).1 = .failed ∧ ((send_message env).2).length = 3 := by
  obtain ⟨r0, ho0, hc0⟩ := h 0 (by omega)
  obtain ⟨r1, ho1, hc1⟩ := h 1 (by omega)
  obtain ⟨r2, ho2, hc2⟩ := h 2 (by omega)
  have e0 := send_loop_step_429 env 2 0 0 r0 ho0 hc0
  have e1 := send_loop_step_429 env 1 1
    ((handle_rate_limit r0 (0 + env.preJitter 0)).2) r1 ho1 hc1
  have e2 := send_loop_step_429 env 0 2
    ((handle_rate_limit r1
      ((handle_rate_limit r0 (0 + env.preJitter 0)).2 + env.preJitter 1)).2) r2 ho2 hc2
  show (send_message_loop env 3 0 0).1 = .failed ∧
    ((send_message_loop env 3 0 0).2).length = 3
  rw [e0, e1, e2]
  exact ⟨rfl, rfl⟩

/-- Claim C4 counterexample: with every attempt answered by a 429, the
call fails after exactly three attempts — the 429 `continue` still
consumes an iteration of `range(3)`, so 429 responses do exhaust the
retry budget, contrary to the claim. -/
theorem claim_C4_counterexample :
    (∀ k, envC4.outcome k = .resp ⟨429, 2, none⟩) ∧
    (send_message envC4).1 = .failed ∧
    ((send_message envC4).2).length = 3 :=
  ⟨fun _ => rfl, rfl, rfl⟩

/-- Claim C4 amended: on an HTTP 429 carrying wait time w the client
blocks at least w before the next issue of the call (the gap to the
next attempt is w plus the nonnegative pre-send jitter), but the
429-triggered retry does count against the budget of 3: three
consecutive 429 responses exhaust it and the call fails. -/
theorem claim_C4_amended (env : SendEnv) (i : Nat) (rr : HttpResp) (ti ti1 : ℚ)
    (ho : env.outcome i = .resp rr) (hc : rr.code = 429)
    (hpj : 0 ≤ env.preJitter (i + 1))
    (h1 : ((send_message env).2).get? i = some ti)
    (h2 : ((send_message env).2).get? (i + 1) = some ti1) :
    rr.retryAfter ≤ ti1 - ti ∧
    ((∀ k, k < 3 → ∃ r, env.outcome k = .resp r ∧ r.code = 429) →
      (send_message env).1 = .failed ∧ ((send_message env).2).length = 3) := by
  constructor
  · unfold send_message at h1 h2
    have hq : headerQuiet (env.outcome (0 + i)) := by
      rw [Nat.zero_add, ho]
      intro hne
      exact absurd hc hne
    have hg := send_loop_gap env 3 0 0 i ti ti1 h1 h2 hq
    rw [Nat.zero_add] at hg
    have hsa : stepAdvance env i = rr.retryAfter := by
      unfold stepAdvance
      rw [ho]
      dsimp only
      rw [if_pos hc]
    rw [hsa] at hg
    linarith
  · intro hall
    exact send_message_all_429 env hall

/-- Claim C4 amended witness: in the all-429 environment the gap after
the first attempt meets the 2-second directive, and the call fails
with all three attempts spent. -/
theorem claim_C4_amended_witness :
    envC4.outcome 0 = .resp ⟨429, 2, none⟩ ∧
    ((send_message envC4).2).get? 0 = some ((0:ℚ) + 1/4) ∧
    ((send_message envC4).2).get? 1 = some ((0:ℚ) + 1/4 + 2 + 1/4) ∧
    ((2:ℚ) ≤ ((0:ℚ) + 1/4 + 2 + 1/4) - ((0:ℚ) + 1/4) ∧
      ((∀ k, k < 3 → ∃ r, envC4.outcome k = .resp r ∧ r.code = 429) →
        (send_message envC4).1 = .failed ∧
        ((send_message envC4).2).length = 3)) :=
  ⟨rfl, rfl, rfl,
    claim_C4_amended envC4 0 ⟨429, 2, none⟩ ((0:ℚ) + 1/4)
      ((0:ℚ) + 1/4 + 2 + 1/4) rfl rfl (by show (0:ℚ) ≤ 1/4; norm_num) rfl rfl⟩

/-- Claim C5: the call makes at most 3 attempts; a 401/403/404
response at any attempt fails the call there, with no further attempt;
three transient outcomes (timeout or other retryable status) spend the
whole budget and only then surface failure; and between consecutive
attempts separated by a transient outcome the elapsed time is the
exponential backoff 2^i plus jitter, bounded by the jitter ranges. -/
theorem claim_C5_retry_policy (env : SendEnv) :
    ((send_message env).2).length ≤ 3 ∧
    (∀ i ti rr, ((send_message env).2).get? i = some ti →
      env.outcome i = .resp rr →
      (rr.code = 401 ∨ rr.code = 403 ∨ rr.code = 404) →
      (send_message env).1 = .failed ∧
      ((send_message env).2).length = i + 1) ∧
    ((∀ k, k < 3 → transientOutcome (env.outcome k)) →
      (send_message env).1 = .failed ∧ ((send_message env).2).length = 3) ∧
    (∀ i ti ti1, ((send_message env).2).get? i = some ti →
      ((send_message env).2).get? (i + 1) = some ti1 →
      transientOutcome (env.outcome i) →
      headerQuiet (env.outcome i) →
      0 ≤ env.backoffJitter i → env.backoffJitter i ≤ 1 →
      0 ≤ env.preJitter (i + 1) → env.preJitter (i + 1) ≤ 1/2 →
      (2:ℚ) ^ i ≤ ti1 - ti ∧ ti1 - ti ≤ 2 ^ i + 3/2) := by
  refine ⟨send_loop_length env 3 0 0, ?_, ?_, ?_⟩
  · intro i ti rr h1 ho hp
    unfold send_message at h1 ⊢
    exact send_loop_perm env 3 0 0 i ti rr h1
      (by rw [Nat.zero_add]; exact ho) hp
  · intro hall
    exact send_message_all_transient env hall
  · intro i ti ti1 h1 h2 htr hq hbj0 hbj1 hp0 hp1
    unfold send_message at h1 h2
    have hq0 : headerQuiet (env.outcome (0 + i)) := by
      rw [Nat.zero_add]
      exact hq
    have hg := send_loop_gap env 3 0 0 i ti ti1 h1 h2 hq0
    rw [Nat.zero_add] at hg
    rcases htr with ho | ⟨rr, ho, hn2xx, h401, h403, h404, h429⟩
    · have hsa : stepAdvance env i = 2 ^ i := by
        unfold stepAdvance
        rw [ho]
      rw [hsa] at hg
      constructor <;> linarith
    · have hsa : stepAdvance env i = 2 ^ i + env.backoffJitter i := by
        unfold stepAdvance
        rw [ho]
        dsimp only
        rw [if_neg h429]
      rw [hsa] at hg
      constructor <;> linarith

/-- Claim C5 witness: a 403 on the first attempt fails the call after
exactly one attempt; three timeouts fail it after exactly three; and
the gap after the first timed-out attempt lies in the backoff band. -/
theorem claim_C5_retry_policy_witness :
    (((send_message envC5p).2).get? 0 = some ((0:ℚ) + 1/2) ∧
      envC5p.outcome 0 = .resp ⟨403, 5, none⟩ ∧
      (send_message envC5p).1 = .failed ∧
      ((send_message envC5p).2).length = 0 + 1) ∧
    ((send_message envC5).1 = .failed ∧
      ((send_message envC5).2).length = 3) ∧
    ((2:ℚ) ^ 0 ≤ ((0:ℚ) + 1/4 + 2 ^ 0 + 1/4) - ((0:ℚ) + 1/4) ∧
      ((0:ℚ) + 1/4 + 2 ^ 0 + 1/4) - ((0:ℚ) + 1/4) ≤ 2 ^ 0 + 3/2) := by
  refine ⟨⟨rfl, rfl, ?_⟩, ?_, ?_⟩
  · exact (claim_C5_retry_policy envC5p).2.1 0 ((0:ℚ) + 1/2) ⟨403, 5, none⟩
      rfl rfl (Or.inr (Or.inl rfl))
  · exact (claim_C5_retry_policy envC5).2.2.1
      (fun k _ => Or.inl rfl)
  · exact (claim_C5_retry_policy envC5).2.2.2 0 ((0:ℚ) + 1/4)
      ((0:ℚ) + 1/4 + 2 ^ 0 + 1/4) rfl rfl (Or.inl rfl) trivial
      (le_refl 0) (by show (0:ℚ) ≤ 1; norm_num)
      (by show (0:ℚ) ≤ 1/4; norm_num) (by show (1:ℚ)/4 ≤ 1/2; norm_num)
